import Mathlib

/-!
Verification development for the frame buffer-pool and producer/consumer
pipeline of the display repository.  The C++ sources are shallowly embedded:
machine pointers become abstract natural-number addresses, the pool's
containers (std::queue, std::unordered_map, std::vector) become lists and
association lists, and every pool operation becomes a pure function from a
pool state to a pool state (paired with the returned value).  The embedding
follows src/source/buffer/BufferPool.cpp, src/source/buffer/BufferHandle.cpp,
src/source/display/LinuxFramebufferDevice.cpp and
src/source/videoFile/MmapVideoReader.cpp.
-/

set_option maxHeartbeats 1000000

/-! ## Association-list helpers

The C++ pool uses std::unordered_map with pointer or integer keys.  We embed
those maps as lists of key/value pairs with the helpers below.
-/

/-- Lookup in a Nat-keyed association list (first matching entry wins). -/
def alookup {α : Type} (k : Nat) : List (Nat × α) → Option α
  | [] => none
  | e :: es => if e.1 = k then some e.2 else alookup k es

/-- Remove every entry with the given key from an association list. -/
def aerase {α : Type} (k : Nat) : List (Nat × α) → List (Nat × α)
  | [] => []
  | e :: es => if e.1 = k then aerase k es else e :: aerase k es

/-- Apply a function to the value stored under key `p`, leaving other
entries untouched (embeds an in-place update through a pointer). -/
def aupdate {α : Type} (p : Nat) (f : α → α) : List (Nat × α) → List (Nat × α)
  | [] => []
  | e :: es => if e.1 = p then (e.1, f e.2) :: aupdate p f es
               else e :: aupdate p f es

/-- Remove every occurrence of `x` from a list of naturals. -/
def lerase (x : Nat) : List Nat → List Nat
  | [] => []
  | y :: ys => if y = x then lerase x ys else y :: lerase x ys

/-! ## Buffer

The Buffer class (include/buffer/Buffer.hpp in the pool variant) is not under
src/; only its callers are.  Its record of fields and the semantics of its
accessors are modelled from the spec.
-/

/-- Ownership tag of a buffer (spec section 3: Owned or External). -/
inductive Ownership where
  | owned
  | external
deriving DecidableEq, Repr

/-- Buffer state (spec section 3 state machine). -/
inductive BufState where
  | idle
  | lockedByProducer
  | readyForConsume
  | lockedByConsumer
deriving DecidableEq, Repr

/-- Modelled from the spec: the pool's Buffer record (its header
include/buffer/Buffer.hpp is missing from src/, only its callers are
present).  Identity, virtual and physical address, size, ownership tag,
state, reference count, and the verdict of the optional user validator
(spec sections 3 and 4.3).  Addresses are abstract naturals, 0 standing for
the null pointer. -/
structure Buffer where
  id : Nat
  virt : Nat
  phys : Nat
  size : Nat
  ownership : Ownership
  state : BufState
  refCount : Int
  userValid : Bool
deriving DecidableEq, Repr

/-- Buffer::isValid, modelled from the spec (section 4.3): virtual address
non-null and size positive. -/
def Buffer.isValidB (b : Buffer) : Bool :=
  decide (b.virt ≠ 0) && decide (0 < b.size)

/-! ## BufferHandle

Embeds include/buffer/BufferHandle.hpp and
src/source/buffer/BufferHandle.cpp.  The shared liveness flag
(std::shared_ptr of bool) is embedded as `alive : Option Bool`: `some v`
means the flag exists and currently holds `v`; `none` means the handle was
moved from (no flag).  The deleter is abstracted by a token identifying it,
whether it is present, and whether it would throw.
-/

structure BufferHandle where
  virt : Nat
  phys : Nat
  size : Nat
  hasDeleter : Bool
  deleterThrows : Bool
  alive : Option Bool
  token : Nat
deriving DecidableEq, Repr

/-- BufferHandle::isValid: virtual address non-null. -/
def BufferHandle.isValidB (h : BufferHandle) : Bool :=
  decide (h.virt ≠ 0)

/-- The destructor runs the custom deleter exactly when the handle is alive
(`virt_addr_ && alive_` in BufferHandle.cpp line 23) and a deleter was
supplied. -/
def BufferHandle.deleterRuns (h : BufferHandle) : Bool :=
  decide (h.virt ≠ 0) && h.alive.isSome && h.hasDeleter

/-- Events observable while ~BufferHandle runs. -/
inductive DtorEvent where
  | setFlagFalse
  | runDeleter
deriving DecidableEq, Repr

/-- Observable outcome of destroying a BufferHandle: the ordered events, the
flag value visible at the instant the deleter executes, whether an exception
escapes the destructor, and what a weak observer of the liveness flag can
obtain once destruction finished (`none` = expired). -/
structure DtorResult where
  events : List DtorEvent
  flagAtDeleter : Option Bool
  escapes : Bool
  observerAfter : Option Bool
deriving DecidableEq, Repr

/-- Embeds BufferHandle::~BufferHandle (BufferHandle.cpp lines 22-41): when
the handle is live, first store false through the shared flag, then run the
deleter if one was supplied, catching any exception it throws; finally the
shared flag itself is destroyed together with the handle, so weak observers
see it expired. -/
def BufferHandle.destruct (h : BufferHandle) : DtorResult :=
  if decide (h.virt ≠ 0) && h.alive.isSome then
    if h.hasDeleter then
      { events := [DtorEvent.setFlagFalse, DtorEvent.runDeleter]
        flagAtDeleter := some false
        escapes := false
        observerAfter := none }
    else
      { events := [DtorEvent.setFlagFalse]
        flagAtDeleter := none
        escapes := false
        observerAfter := none }
  else
    { events := [], flagAtDeleter := none, escapes := false,
      observerAfter := none }

/-! ## BufferPool state

Embeds the data members of class BufferPool
(include/buffer/BufferPool.hpp lines 286-322).  Buffer objects live in an
abstract heap keyed by their address; `buffers_` and `transient_buffers_`
both contribute heap entries.  `acquired` is a ghost component recording the
addresses currently handed out by a successful acquire and not yet given
back; the C++ object keeps no such container, it exists only to state
invariants about buffers in a producer's or consumer's hands. -/
structure BufferPool where
  heap : List (Nat × Buffer)
  bufferMap : List (Nat × Nat)
  freeQueue : List Nat
  filledQueue : List Nat
  transient : List (Nat × BufferHandle)
  trackers : List (Option Bool)
  acquired : List Nat
  nextId : Nat
  nextPtr : Nat
  bufferSize : Nat
  deleterCalls : List Nat
deriving DecidableEq, Repr

namespace BufferPool

/-- A buffer reference as passed to submit/release: the abstract address of
the Buffer object together with the id read through it. -/
structure BufRef where
  ptr : Nat
  id : Nat
deriving DecidableEq, Repr

/-- Embeds BufferPool::verifyBufferOwnership (BufferPool.cpp lines 631-641):
the id read from the argument object must be mapped, and mapped to that very
object. -/
def verifyBufferOwnership (s : BufferPool) (r : BufRef) : Bool :=
  decide (alookup r.id s.bufferMap = some r.ptr)

/-- The liveness portion of BufferPool::validateBuffer (lines 522-536): for
an external buffer whose id indexes into lifetime_trackers_, the weak
reference must still lock and the flag must still be true; ids beyond the
tracker vector are not checked. -/
def livenessOk (s : BufferPool) (b : Buffer) : Bool :=
  match b.ownership with
  | Ownership.owned => true
  | Ownership.external =>
    if b.id < s.trackers.length then
      decide (s.trackers.getD b.id none = some true)
    else
      true

/-- Embeds BufferPool::validateBuffer (BufferPool.cpp lines 506-540) applied
to the pool's own object at address `p` holding record `b`: basic validity,
ownership, liveness for tracked externals, then the user validator. -/
def validateBuffer (s : BufferPool) (p : Nat) (b : Buffer) : Bool :=
  b.isValidB && verifyBufferOwnership s ⟨p, b.id⟩ && livenessOk s b
    && b.userValid

/-- Embeds BufferPool::acquireFree (BufferPool.cpp lines 290-329).  The
blocking/timeout variants all reduce, in this sequential embedding, to
failing on an empty queue.  A buffer failing validation is pushed back at
the tail and the call returns null; otherwise the buffer transitions to
LockedByProducer, its reference count is incremented, and it is handed
out. -/
def acquireFree (s : BufferPool) : Option Nat × BufferPool :=
  match s.freeQueue with
  | [] => (none, s)
  | p :: rest =>
    match alookup p s.heap with
    | none => (none, { s with freeQueue := rest })
    | some b =>
      if validateBuffer s p b then
        (some p,
         { s with
             freeQueue := rest
             heap := aupdate p (fun b0 =>
               { b0 with state := BufState.lockedByProducer,
                         refCount := b0.refCount + 1 }) s.heap
             acquired := p :: s.acquired })
      else
        (none, { s with freeQueue := rest ++ [p] })

/-- Embeds BufferPool::submitFilled (BufferPool.cpp lines 331-355).  Null
and foreign buffers are rejected without touching the pool; otherwise the
buffer is marked ReadyForConsume and pushed on the filled queue. -/
def submitFilled (s : BufferPool) (r : Option BufRef) : BufferPool :=
  match r with
  | none => s
  | some r =>
    if verifyBufferOwnership s r then
      { s with
          heap := aupdate r.ptr
            (fun b0 => { b0 with state := BufState.readyForConsume }) s.heap
          filledQueue := s.filledQueue ++ [r.ptr]
          acquired := lerase r.ptr s.acquired }
    else s

/-- Embeds BufferPool::acquireFilled (BufferPool.cpp lines 361-397).  Unlike
acquireFree, a popped buffer failing validation is NOT pushed back: the call
returns null and the buffer is left on no queue. -/
def acquireFilled (s : BufferPool) : Option Nat × BufferPool :=
  match s.filledQueue with
  | [] => (none, s)
  | p :: rest =>
    match alookup p s.heap with
    | none => (none, { s with filledQueue := rest })
    | some b =>
      if validateBuffer s p b then
        (some p,
         { s with
             filledQueue := rest
             heap := aupdate p (fun b0 =>
               { b0 with state := BufState.lockedByConsumer }) s.heap
             acquired := p :: s.acquired })
      else
        (none, { s with filledQueue := rest })

/-- Embeds BufferPool::ejectBuffer (BufferPool.cpp lines 702-743): if the
buffer is a transient, drop its handle (running ~BufferHandle, hence its
deleter), destroy the transient Buffer object, and erase its id from the
id-map.  Queues are not touched. -/
def ejectBuffer (s : BufferPool) (r : BufRef) : Bool × BufferPool :=
  match alookup r.ptr s.transient with
  | none => (false, s)
  | some h =>
    let bid := match alookup r.ptr s.heap with
               | some b => b.id
               | none => r.id
    (true,
     { s with
         transient := aerase r.ptr s.transient
         heap := aerase r.ptr s.heap
         bufferMap := aerase bid s.bufferMap
         deleterCalls :=
           if h.deleterRuns then h.token :: s.deleterCalls
           else s.deleterCalls
         acquired := lerase r.ptr s.acquired })

/-- Embeds BufferPool::releaseFilled (BufferPool.cpp lines 399-437).  A
transient buffer is ejected (triggering its handle's deleter); a normal
buffer, after the ownership check, has its reference count decremented, is
set Idle and pushed on the free queue. -/
def releaseFilled (s : BufferPool) (r : Option BufRef) : BufferPool :=
  match r with
  | none => s
  | some r =>
    if (alookup r.ptr s.transient).isSome then
      (ejectBuffer s r).2
    else if verifyBufferOwnership s r then
      { s with
          heap := aupdate r.ptr (fun b0 =>
            { b0 with state := BufState.idle,
                      refCount := b0.refCount - 1 }) s.heap
          freeQueue := s.freeQueue ++ [r.ptr]
          acquired := lerase r.ptr s.acquired }
    else s

/-- Embeds BufferPool::injectFilledBuffer (BufferPool.cpp lines 663-700): an
invalid handle is rejected; otherwise a fresh transient Buffer wrapping the
handle's memory is created with a fresh id, tagged External and
ReadyForConsume, recorded in the transient table and the id-map, and pushed
on the filled queue. -/
def injectFilledBuffer (s : BufferPool) (h : BufferHandle) :
    Option Nat × BufferPool :=
  if h.isValidB then
    let bid := s.nextId
    let p := s.nextPtr
    let b : Buffer :=
      { id := bid, virt := h.virt, phys := h.phys, size := h.size
        ownership := Ownership.external, state := BufState.readyForConsume
        refCount := 0, userValid := true }
    (some p,
     { s with
         nextId := bid + 1
         nextPtr := p + 1
         heap := (p, b) :: s.heap
         transient := (p, h) :: s.transient
         bufferMap := (bid, p) :: s.bufferMap
         filledQueue := s.filledQueue ++ [p] })
  else
    (none, s)

/-- The id stored in the Buffer object at address `p` (what `buffer->id()`
reads), as an option to account for dangling addresses. -/
def idAt (s : BufferPool) (p : Nat) : Option Nat :=
  (alookup p s.heap).map Buffer.id

/-- The reference a client holding the Buffer object at `p` would pass to
submit/release/eject: the address plus the id read through it. -/
def refOf (s : BufferPool) (p : Nat) : BufRef :=
  ⟨p, (idAt s p).getD 0⟩

end BufferPool

/-! ## Pool constructors -/

namespace BufferPool

/-- Embeds construction mode 1 (BufferPool.cpp lines 13-36 and 146-193):
`count` owned buffers with ids 0,1,..., all Idle with reference count 0, all
in the free queue.  The allocator's page-aligned virtual addresses are
abstracted as distinct non-null naturals; the physical address is left 0
(best-effort lookup may fail). -/
def mkOwnedPool (count : Nat) (size : Nat) : BufferPool :=
  { heap := (List.range count).map (fun i =>
      (i, { id := i, virt := (i + 1) * 4096, phys := 0, size := size
            ownership := Ownership.owned, state := BufState.idle
            refCount := 0, userValid := true }))
    bufferMap := (List.range count).map (fun i => (i, i))
    freeQueue := List.range count
    filledQueue := []
    transient := []
    trackers := []
    acquired := []
    nextId := count
    nextPtr := count
    bufferSize := size
    deleterCalls := [] }

/-- Embeds construction mode 3 (BufferPool.cpp lines 64-89 and 240-284):
external buffers created from handles, with one lifetime tracker per buffer
id; all start Idle in the free queue.  The `alive` field of each given
handle is the current observable state of its liveness flag. -/
def mkTrackedPool (handles : List BufferHandle) : BufferPool :=
  { heap := handles.enum.map (fun e =>
      (e.1, { id := e.1, virt := e.2.virt, phys := e.2.phys, size := e.2.size
              ownership := Ownership.external, state := BufState.idle
              refCount := 0, userValid := true }))
    bufferMap := (List.range handles.length).map (fun i => (i, i))
    freeQueue := List.range handles.length
    filledQueue := []
    transient := []
    trackers := handles.map (fun h => h.alive)
    acquired := []
    nextId := handles.length
    nextPtr := handles.length
    bufferSize := (handles.headD ⟨0, 0, 0, false, false, none, 0⟩).size
    deleterCalls := [] }

/-- Embeds construction mode 4 (BufferPool.cpp lines 91-116): the
dynamic-injection pool starts empty. -/
def mkDynamicPool : BufferPool :=
  { heap := [], bufferMap := [], freeQueue := [], filledQueue := []
    transient := [], trackers := [], acquired := [], nextId := 0
    nextPtr := 0, bufferSize := 0, deleterCalls := [] }

end BufferPool

/-! ## Lemmas about the association-list helpers -/

theorem alookup_mem {α : Type} {k : Nat} {v : α} :
    ∀ {l : List (Nat × α)}, alookup k l = some v → (k, v) ∈ l := by
  intro l
  induction l with
  | nil => intro h; simp [alookup] at h
  | cons e es ih =>
    obtain ⟨a, b⟩ := e
    intro h
    by_cases hak : a = k
    · subst hak
      simp only [alookup, if_pos rfl, if_true, Option.some.injEq] at h
      subst h
      exact List.mem_cons_self _ _
    · simp only [alookup, if_neg hak] at h
      exact List.mem_cons_of_mem _ (ih h)

theorem alookup_isSome_mem_keys {α : Type} {k : Nat} {l : List (Nat × α)}
    (h : (alookup k l).isSome) : k ∈ l.map Prod.fst := by
  cases hv : alookup k l with
  | none => rw [hv] at h; simp at h
  | some v => exact List.mem_map_of_mem Prod.fst (alookup_mem hv)

theorem alookup_eq_none_of_not_mem_keys {α : Type} {k : Nat}
    {l : List (Nat × α)} (h : k ∉ l.map Prod.fst) : alookup k l = none := by
  cases hv : alookup k l with
  | none => rfl
  | some v => exact absurd (alookup_isSome_mem_keys (by simp [hv])) h

theorem alookup_aupdate_self {α : Type} (p : Nat) (f : α → α) :
    ∀ (l : List (Nat × α)),
      alookup p (aupdate p f l) = (alookup p l).map f := by
  intro l
  induction l with
  | nil => simp [alookup, aupdate]
  | cons e es ih =>
    obtain ⟨a, b⟩ := e
    by_cases hap : a = p
    · subst hap
      simp [aupdate, alookup]
    · simp only [aupdate, alookup, if_neg hap, ih]

theorem alookup_aupdate_ne {α : Type} {q p : Nat} (f : α → α)
    (hqp : q ≠ p) :
    ∀ (l : List (Nat × α)), alookup q (aupdate p f l) = alookup q l := by
  intro l
  induction l with
  | nil => simp [alookup, aupdate]
  | cons e es ih =>
    obtain ⟨a, b⟩ := e
    by_cases hap : a = p
    · subst hap
      have haq : ¬ (a = q) := fun h => hqp h.symm
      simp only [aupdate, if_pos rfl, alookup, if_true, if_neg haq, ih]
    · by_cases haq : a = q
      · subst haq
        simp [aupdate, alookup, if_neg hap]
      · simp only [aupdate, if_neg hap, alookup, if_neg haq, ih]

theorem aupdate_keys {α : Type} (p : Nat) (f : α → α) :
    ∀ (l : List (Nat × α)), (aupdate p f l).map Prod.fst = l.map Prod.fst := by
  intro l
  induction l with
  | nil => simp [aupdate]
  | cons e es ih =>
    obtain ⟨a, b⟩ := e
    by_cases hap : a = p
    · simp only [aupdate, if_pos hap, List.map_cons, ih]
    · simp only [aupdate, if_neg hap, List.map_cons, ih]

theorem mem_aupdate {α : Type} {p : Nat} {f : α → α} {e : Nat × α} :
    ∀ {l : List (Nat × α)}, e ∈ aupdate p f l →
      e ∈ l ∨ ∃ b, (e.1, b) ∈ l ∧ e.2 = f b := by
  intro l
  induction l with
  | nil => intro h; simp [aupdate] at h
  | cons e0 es ih =>
    obtain ⟨a, b⟩ := e0
    intro h
    by_cases hap : a = p
    · rw [aupdate, if_pos hap] at h
      rcases List.mem_cons.mp h with h1 | h1
      · subst h1
        exact Or.inr ⟨b, List.mem_cons_self _ _, rfl⟩
      · rcases ih h1 with h2 | ⟨b', hb', he2⟩
        · exact Or.inl (List.mem_cons_of_mem _ h2)
        · exact Or.inr ⟨b', List.mem_cons_of_mem _ hb', he2⟩
    · rw [aupdate, if_neg hap] at h
      rcases List.mem_cons.mp h with h1 | h1
      · exact Or.inl (h1 ▸ List.mem_cons_self _ _)
      · rcases ih h1 with h2 | ⟨b', hb', he2⟩
        · exact Or.inl (List.mem_cons_of_mem _ h2)
        · exact Or.inr ⟨b', List.mem_cons_of_mem _ hb', he2⟩

theorem alookup_aupdate_isSome {α : Type} (q p : Nat) (f : α → α)
    (l : List (Nat × α)) :
    (alookup q (aupdate p f l)).isSome = (alookup q l).isSome := by
  by_cases hqp : q = p
  · subst hqp; rw [alookup_aupdate_self]; cases alookup q l <;> simp
  · rw [alookup_aupdate_ne f hqp]

theorem aerase_sublist {α : Type} (k : Nat) :
    ∀ (l : List (Nat × α)), (aerase k l).Sublist l := by
  intro l
  induction l with
  | nil => simp [aerase]
  | cons e es ih =>
    by_cases he : e.1 = k
    · rw [aerase, if_pos he]
      exact ih.cons e
    · rw [aerase, if_neg he]
      exact ih.cons₂ e

theorem mem_aerase {α : Type} {k : Nat} {e : Nat × α} :
    ∀ {l : List (Nat × α)}, e ∈ aerase k l → e ∈ l ∧ e.1 ≠ k := by
  intro l
  induction l with
  | nil => intro h; simp [aerase] at h
  | cons e0 es ih =>
    intro h
    by_cases he : e0.1 = k
    · rw [aerase, if_pos he] at h
      exact ⟨List.mem_cons_of_mem _ (ih h).1, (ih h).2⟩
    · rw [aerase, if_neg he] at h
      rcases List.mem_cons.mp h with h1 | h1
      · subst h1
        exact ⟨List.mem_cons_self _ _, he⟩
      · exact ⟨List.mem_cons_of_mem _ (ih h1).1, (ih h1).2⟩

theorem alookup_aerase_self {α : Type} (k : Nat) :
    ∀ (l : List (Nat × α)), alookup k (aerase k l) = none := by
  intro l
  apply alookup_eq_none_of_not_mem_keys
  intro hmem
  rcases List.mem_map.mp hmem with ⟨e, he, hk⟩
  exact (mem_aerase he).2 hk

theorem alookup_aerase_ne {α : Type} {q k : Nat} (hqk : q ≠ k) :
    ∀ (l : List (Nat × α)), alookup q (aerase k l) = alookup q l := by
  intro l
  induction l with
  | nil => simp [aerase]
  | cons e es ih =>
    obtain ⟨a, b⟩ := e
    by_cases hak : a = k
    · subst hak
      have haq : ¬ (a = q) := fun h => hqk h.symm
      rw [aerase, if_pos rfl, alookup, if_neg haq, ih]
    · by_cases haq : a = q
      · subst haq
        rw [aerase, if_neg hak, alookup, if_pos rfl, alookup, if_pos rfl]
      · rw [aerase, if_neg hak, alookup, if_neg haq, alookup, if_neg haq, ih]

theorem mem_lerase {x y : Nat} :
    ∀ {l : List Nat}, x ∈ lerase y l ↔ x ∈ l ∧ x ≠ y := by
  intro l
  induction l with
  | nil => simp [lerase]
  | cons z zs ih =>
    by_cases hz : z = y
    · subst hz
      rw [lerase, if_pos rfl]
      constructor
      · intro h; exact ⟨List.mem_cons_of_mem _ (ih.mp h).1, (ih.mp h).2⟩
      · rintro ⟨hmem, hne⟩
        rcases List.mem_cons.mp hmem with h1 | h1
        · exact absurd h1 hne
        · exact ih.mpr ⟨h1, hne⟩
    · rw [lerase, if_neg hz]
      constructor
      · intro h
        rcases List.mem_cons.mp h with h1 | h1
        · subst h1; exact ⟨List.mem_cons_self _ _, hz⟩
        · exact ⟨List.mem_cons_of_mem _ (ih.mp h1).1, (ih.mp h1).2⟩
      · rintro ⟨hmem, hne⟩
        rcases List.mem_cons.mp hmem with h1 | h1
        · subst h1; exact List.mem_cons_self _ _
        · exact List.mem_cons_of_mem _ (ih.mpr ⟨h1, hne⟩)

theorem lerase_sublist (x : Nat) :
    ∀ (l : List Nat), (lerase x l).Sublist l := by
  intro l
  induction l with
  | nil => simp [lerase]
  | cons z zs ih =>
    by_cases hz : z = x
    · rw [lerase, if_pos hz]; exact ih.cons z
    · rw [lerase, if_neg hz]; exact ih.cons₂ z

theorem lerase_eq_of_not_mem {x : Nat} :
    ∀ {l : List Nat}, x ∉ l → lerase x l = l := by
  intro l
  induction l with
  | nil => intro _; rfl
  | cons z zs ih =>
    intro h
    have hz : z ≠ x := fun he => h (he ▸ List.mem_cons_self _ _)
    rw [lerase, if_neg hz, ih (fun hm => h (List.mem_cons_of_mem _ hm))]

theorem perm_cons_lerase {x : Nat} :
    ∀ {l : List Nat}, l.Nodup → x ∈ l → l.Perm (x :: lerase x l) := by
  intro l
  induction l with
  | nil => intro _ h; simp at h
  | cons z zs ih =>
    intro hnd hmem
    by_cases hz : z = x
    · subst hz
      have hnz : z ∉ zs := (List.nodup_cons.mp hnd).1
      rw [lerase, if_pos rfl, lerase_eq_of_not_mem hnz]
    · have hx : x ∈ zs := by
        rcases List.mem_cons.mp hmem with h1 | h1
        · exact absurd h1.symm hz
        · exact h1
      rw [lerase, if_neg hz]
      exact (List.Perm.cons z (ih (List.nodup_cons.mp hnd).2 hx)).trans
        (List.Perm.swap x z _)

/-! ## Pool well-formedness and the duplication invariant -/

namespace BufferPool

/-- Structural well-formedness of a pool state: heap addresses are unique,
the id-map and the heap agree in both directions, every queue entry, every
handed-out buffer and every transient entry denotes a live object, and the
fresh-id and fresh-address counters bound everything in use. -/
abbrev WF (s : BufferPool) : Prop :=
  (s.heap.map Prod.fst).Nodup ∧
  (∀ e ∈ s.heap, alookup e.2.id s.bufferMap = some e.1) ∧
  (∀ e ∈ s.bufferMap, (alookup e.2 s.heap).map Buffer.id = some e.1) ∧
  (∀ p ∈ s.freeQueue, (alookup p s.heap).isSome = true) ∧
  (∀ p ∈ s.filledQueue, (alookup p s.heap).isSome = true) ∧
  (∀ p ∈ s.acquired, (alookup p s.heap).isSome = true) ∧
  (∀ e ∈ s.transient, (alookup e.1 s.heap).isSome = true) ∧
  (∀ e ∈ s.heap, e.1 < s.nextPtr) ∧
  (∀ e ∈ s.heap, e.2.id < s.nextId) ∧
  s.trackers.length ≤ s.nextId

/-- The list of buffer addresses occupying a place in the pool: the free
queue, the filled queue, or a producer's or consumer's hands. -/
def occupancy (s : BufferPool) : List Nat :=
  s.freeQueue ++ s.filledQueue ++ s.acquired

/-- The pool invariant: structural well-formedness plus the property that
every buffer address occupies at most one place. -/
abbrev inv (s : BufferPool) : Prop :=
  WF s ∧ (occupancy s).Nodup

/-- A client call on the pool, with Buffer-pointer arguments given as
abstract addresses.  The argument reference of submit/release/eject is
reconstructed at call time by reading the id through the address, exactly as
the C++ code does via `buffer->id()`. -/
inductive Op where
  | acqFree
  | acqFilled
  | submit (p : Nat)
  | release (p : Nat)
  | inject (h : BufferHandle)
  | eject (p : Nat)
deriving DecidableEq, Repr

/-- One client call, state part. -/
def step (s : BufferPool) : Op → BufferPool
  | Op.acqFree => (acquireFree s).2
  | Op.acqFilled => (acquireFilled s).2
  | Op.submit p => submitFilled s (some (refOf s p))
  | Op.release p => releaseFilled s (some (refOf s p))
  | Op.inject h => (injectFilledBuffer s h).2
  | Op.eject p => (ejectBuffer s (refOf s p)).2

/-- Protocol discipline: submit, release and eject may only be applied to a
buffer that the pool currently has handed out (clients only hold buffers
returned to them by a successful acquire and not yet given back). -/
def legalB (s : BufferPool) : Op → Bool
  | Op.submit p => decide (p ∈ s.acquired)
  | Op.release p => decide (p ∈ s.acquired)
  | Op.eject p => decide (p ∈ s.acquired)
  | _ => true

/-- Run a list of client calls. -/
def runOps (s : BufferPool) : List Op → BufferPool
  | [] => s
  | op :: ops => runOps (step s op) ops

/-- A list of client calls respecting the protocol discipline from `s`. -/
def legalTraceB (s : BufferPool) : List Op → Bool
  | [] => true
  | op :: ops => legalB s op && legalTraceB (step s op) ops

end BufferPool

/-! ## Branch characterizations of the pool operations -/

namespace BufferPool

theorem acquireFree_nil {s : BufferPool} (hq : s.freeQueue = []) :
    acquireFree s = (none, s) := by
  unfold acquireFree
  rw [hq]

theorem acquireFree_dangling {s : BufferPool} {p : Nat} {rest : List Nat}
    (hq : s.freeQueue = p :: rest) (hl : alookup p s.heap = none) :
    acquireFree s = (none, { s with freeQueue := rest }) := by
  unfold acquireFree
  rw [hq]
  simp only [hl]

theorem acquireFree_dead {s : BufferPool} {p : Nat} {rest : List Nat}
    {b : Buffer} (hq : s.freeQueue = p :: rest)
    (hl : alookup p s.heap = some b)
    (hv : validateBuffer s p b = false) :
    acquireFree s = (none, { s with freeQueue := rest ++ [p] }) := by
  unfold acquireFree
  rw [hq]
  simp only [hl, hv]
  rfl

theorem acquireFree_ok {s : BufferPool} {p : Nat} {rest : List Nat}
    {b : Buffer} (hq : s.freeQueue = p :: rest)
    (hl : alookup p s.heap = some b)
    (hv : validateBuffer s p b = true) :
    acquireFree s = (some p,
      { s with
          freeQueue := rest
          heap := aupdate p (fun b0 =>
            { b0 with state := BufState.lockedByProducer,
                      refCount := b0.refCount + 1 }) s.heap
          acquired := p :: s.acquired }) := by
  unfold acquireFree
  rw [hq]
  simp only [hl, hv]
  rfl

theorem acquireFilled_nil {s : BufferPool} (hq : s.filledQueue = []) :
    acquireFilled s = (none, s) := by
  unfold acquireFilled
  rw [hq]

theorem acquireFilled_dangling {s : BufferPool} {p : Nat} {rest : List Nat}
    (hq : s.filledQueue = p :: rest) (hl : alookup p s.heap = none) :
    acquireFilled s = (none, { s with filledQueue := rest }) := by
  unfold acquireFilled
  rw [hq]
  simp only [hl]

theorem acquireFilled_dead {s : BufferPool} {p : Nat} {rest : List Nat}
    {b : Buffer} (hq : s.filledQueue = p :: rest)
    (hl : alookup p s.heap = some b)
    (hv : validateBuffer s p b = false) :
    acquireFilled s = (none, { s with filledQueue := rest }) := by
  unfold acquireFilled
  rw [hq]
  simp only [hl, hv]
  rfl

theorem acquireFilled_ok {s : BufferPool} {p : Nat} {rest : List Nat}
    {b : Buffer} (hq : s.filledQueue = p :: rest)
    (hl : alookup p s.heap = some b)
    (hv : validateBuffer s p b = true) :
    acquireFilled s = (some p,
      { s with
          filledQueue := rest
          heap := aupdate p (fun b0 =>
            { b0 with state := BufState.lockedByConsumer }) s.heap
          acquired := p :: s.acquired }) := by
  unfold acquireFilled
  rw [hq]
  simp only [hl, hv]
  rfl

theorem submitFilled_none (s : BufferPool) : submitFilled s none = s := rfl

theorem submitFilled_foreign {s : BufferPool} {r : BufRef}
    (hv : verifyBufferOwnership s r = false) :
    submitFilled s (some r) = s := by
  unfold submitFilled
  simp only [hv]
  rfl

theorem submitFilled_own {s : BufferPool} {r : BufRef}
    (hv : verifyBufferOwnership s r = true) :
    submitFilled s (some r) =
      { s with
          heap := aupdate r.ptr
            (fun b0 => { b0 with state := BufState.readyForConsume }) s.heap
          filledQueue := s.filledQueue ++ [r.ptr]
          acquired := lerase r.ptr s.acquired } := by
  unfold submitFilled
  simp only [hv]
  rfl

theorem ejectBuffer_foreign {s : BufferPool} {r : BufRef}
    (ht : alookup r.ptr s.transient = none) :
    ejectBuffer s r = (false, s) := by
  unfold ejectBuffer
  simp only [ht]

theorem ejectBuffer_transient {s : BufferPool} {r : BufRef}
    {h : BufferHandle} {b : Buffer}
    (ht : alookup r.ptr s.transient = some h)
    (hl : alookup r.ptr s.heap = some b) :
    ejectBuffer s r = (true,
      { s with
          transient := aerase r.ptr s.transient
          heap := aerase r.ptr s.heap
          bufferMap := aerase b.id s.bufferMap
          deleterCalls :=
            if h.deleterRuns then h.token :: s.deleterCalls
            else s.deleterCalls
          acquired := lerase r.ptr s.acquired }) := by
  unfold ejectBuffer
  simp only [ht, hl]

theorem releaseFilled_none (s : BufferPool) : releaseFilled s none = s := rfl

theorem releaseFilled_transient {s : BufferPool} {r : BufRef}
    {h : BufferHandle} (ht : alookup r.ptr s.transient = some h) :
    releaseFilled s (some r) = (ejectBuffer s r).2 := by
  unfold releaseFilled
  simp only [ht]
  rfl

theorem releaseFilled_foreign {s : BufferPool} {r : BufRef}
    (ht : alookup r.ptr s.transient = none)
    (hv : verifyBufferOwnership s r = false) :
    releaseFilled s (some r) = s := by
  unfold releaseFilled
  simp only [ht, hv]
  rfl

theorem releaseFilled_own {s : BufferPool} {r : BufRef}
    (ht : alookup r.ptr s.transient = none)
    (hv : verifyBufferOwnership s r = true) :
    releaseFilled s (some r) =
      { s with
          heap := aupdate r.ptr (fun b0 =>
            { b0 with state := BufState.idle,
                      refCount := b0.refCount - 1 }) s.heap
          freeQueue := s.freeQueue ++ [r.ptr]
          acquired := lerase r.ptr s.acquired } := by
  unfold releaseFilled
  simp only [ht, hv]
  rfl

theorem injectFilledBuffer_invalid {s : BufferPool} {h : BufferHandle}
    (hv : h.isValidB = false) :
    injectFilledBuffer s h = (none, s) := by
  unfold injectFilledBuffer
  simp only [hv]
  rfl

theorem injectFilledBuffer_valid {s : BufferPool} {h : BufferHandle}
    (hv : h.isValidB = true) :
    injectFilledBuffer s h = (some s.nextPtr,
      { s with
          nextId := s.nextId + 1
          nextPtr := s.nextPtr + 1
          heap := (s.nextPtr,
            { id := s.nextId, virt := h.virt, phys := h.phys, size := h.size
              ownership := Ownership.external
              state := BufState.readyForConsume
              refCount := 0, userValid := true }) :: s.heap
          transient := (s.nextPtr, h) :: s.transient
          bufferMap := (s.nextId, s.nextPtr) :: s.bufferMap
          filledQueue := s.filledQueue ++ [s.nextPtr] }) := by
  unfold injectFilledBuffer
  simp only [hv]
  rfl

end BufferPool

/-! ## Preservation of the pool invariant -/

theorem alookup_cons_self {α : Type} (k : Nat) (v : α) (l : List (Nat × α)) :
    alookup k ((k, v) :: l) = some v := by
  simp [alookup]

theorem alookup_cons_ne {α : Type} {k a : Nat} (v : α) (l : List (Nat × α))
    (hka : k ≠ a) : alookup a ((k, v) :: l) = alookup a l := by
  simp [alookup, hka]

namespace BufferPool

theorem mapConsistent_aupdate {heap : List (Nat × Buffer)}
    {m : List (Nat × Nat)} {p : Nat} {f : Buffer → Buffer}
    (hf : ∀ b, (f b).id = b.id)
    (h2 : ∀ e ∈ heap, alookup e.2.id m = some e.1) :
    ∀ e ∈ aupdate p f heap, alookup e.2.id m = some e.1 := by
  intro e he
  rcases mem_aupdate he with h | ⟨b, hb, he2⟩
  · exact h2 e h
  · rw [he2, hf b]
    exact h2 (e.1, b) hb

theorem mapBacked_aupdate {heap : List (Nat × Buffer)}
    {m : List (Nat × Nat)} {p : Nat} {f : Buffer → Buffer}
    (hf : ∀ b, (f b).id = b.id)
    (h3 : ∀ e ∈ m, (alookup e.2 heap).map Buffer.id = some e.1) :
    ∀ e ∈ m, (alookup e.2 (aupdate p f heap)).map Buffer.id = some e.1 := by
  intro e he
  by_cases hep : e.2 = p
  · rw [hep, alookup_aupdate_self]
    have horig := h3 e he
    rw [hep] at horig
    cases hb : alookup p heap with
    | none => rw [hb] at horig; simp at horig
    | some b =>
      rw [hb] at horig
      simp only [Option.map_some', Option.some.injEq] at horig
      simp only [Option.map_some', Option.some.injEq, hf b]
      exact horig
  · rw [alookup_aupdate_ne f hep]
    exact h3 e he

theorem ptrBound_aupdate {heap : List (Nat × Buffer)} {p n : Nat}
    {f : Buffer → Buffer} (h8 : ∀ e ∈ heap, e.1 < n) :
    ∀ e ∈ aupdate p f heap, e.1 < n := by
  intro e he
  rcases mem_aupdate he with h | ⟨b, hb, _⟩
  · exact h8 e h
  · exact h8 (e.1, b) hb

theorem idBound_aupdate {heap : List (Nat × Buffer)} {p n : Nat}
    {f : Buffer → Buffer} (hf : ∀ b, (f b).id = b.id)
    (h9 : ∀ e ∈ heap, e.2.id < n) :
    ∀ e ∈ aupdate p f heap, e.2.id < n := by
  intro e he
  rcases mem_aupdate he with h | ⟨b, hb, he2⟩
  · exact h9 e h
  · rw [he2, hf b]
    exact h9 (e.1, b) hb

/-- BufferPool::acquireFree preserves the pool invariant. -/
theorem inv_acquireFree {s : BufferPool} (h : inv s) :
    inv (acquireFree s).2 := by
  obtain ⟨⟨h1, h2, h3, h4, h5, h6, h7, h8, h9, h10⟩, hnd⟩ := h
  cases hq : s.freeQueue with
  | nil =>
    rw [acquireFree_nil hq]
    exact ⟨⟨h1, h2, h3, h4, h5, h6, h7, h8, h9, h10⟩, hnd⟩
  | cons p rest =>
    have hq4 : ∀ q ∈ rest, (alookup q s.heap).isSome = true :=
      fun q hqm => h4 q (by rw [hq]; exact List.mem_cons_of_mem _ hqm)
    have hndq : ((p :: rest ++ s.filledQueue) ++ s.acquired).Nodup := by
      have := hnd
      unfold occupancy at this
      rw [hq] at this
      exact this
    cases hl : alookup p s.heap with
    | none =>
      rw [acquireFree_dangling hq hl]
      refine ⟨⟨h1, h2, h3, hq4, h5, h6, h7, h8, h9, h10⟩, ?_⟩
      show ((rest ++ s.filledQueue) ++ s.acquired).Nodup
      have hsub : List.Sublist ((rest ++ s.filledQueue) ++ s.acquired)
          ((p :: rest ++ s.filledQueue) ++ s.acquired) :=
        (((List.sublist_cons_self p rest).append
          (List.Sublist.refl s.filledQueue)).append
          (List.Sublist.refl s.acquired))
      exact List.Nodup.sublist hsub hndq
    | some b =>
      cases hv : validateBuffer s p b with
      | false =>
        rw [acquireFree_dead hq hl hv]
        refine ⟨⟨h1, h2, h3, ?_, h5, h6, h7, h8, h9, h10⟩, ?_⟩
        · intro q hqm
          rcases List.mem_append.mp hqm with h0 | h0
          · exact hq4 q h0
          · rw [List.mem_singleton.mp h0, hl]
            rfl
        · show (((rest ++ [p]) ++ s.filledQueue) ++ s.acquired).Nodup
          have hperm : ((rest ++ [p]) ++ s.filledQueue) ++ s.acquired
              |>.Perm ((p :: rest ++ s.filledQueue) ++ s.acquired) :=
            ((List.perm_append_singleton p rest).append_right
              s.filledQueue).append_right s.acquired
          exact hperm.symm.nodup hndq
      | true =>
        rw [acquireFree_ok hq hl hv]
        refine ⟨⟨?_, ?_, ?_, ?_, ?_, ?_, ?_, ?_, ?_, h10⟩, ?_⟩
        · show ((aupdate p _ s.heap).map Prod.fst).Nodup
          rw [aupdate_keys]
          exact h1
        · exact mapConsistent_aupdate (fun b0 => rfl) h2
        · exact mapBacked_aupdate (fun b0 => rfl) h3
        · intro q hqm
          show (alookup q (aupdate p _ s.heap)).isSome = true
          rw [alookup_aupdate_isSome]
          exact hq4 q hqm
        · intro q hqm
          show (alookup q (aupdate p _ s.heap)).isSome = true
          rw [alookup_aupdate_isSome]
          exact h5 q hqm
        · intro q hqm
          show (alookup q (aupdate p _ s.heap)).isSome = true
          rw [alookup_aupdate_isSome]
          rcases List.mem_cons.mp hqm with h0 | h0
          · rw [h0, hl]; rfl
          · exact h6 q h0
        · intro e he
          show (alookup e.1 (aupdate p _ s.heap)).isSome = true
          rw [alookup_aupdate_isSome]
          exact h7 e he
        · exact ptrBound_aupdate h8
        · exact idBound_aupdate (fun b0 => rfl) h9
        · show ((rest ++ s.filledQueue) ++ (p :: s.acquired)).Nodup
          have hperm : (p :: ((rest ++ s.filledQueue) ++ s.acquired)).Perm
              ((rest ++ s.filledQueue) ++ (p :: s.acquired)) :=
            List.perm_middle.symm
          exact hperm.nodup hndq

end BufferPool

namespace BufferPool

/-- Split a no-duplicates occupancy list into its component facts. -/
theorem occupancy_split {A B C : List Nat} (h : ((A ++ B) ++ C).Nodup) :
    A.Nodup ∧ B.Nodup ∧ C.Nodup ∧
    (∀ x ∈ A, x ∉ B) ∧ (∀ x ∈ A, x ∉ C) ∧ (∀ x ∈ B, x ∉ C) := by
  rw [List.nodup_append] at h
  obtain ⟨hab, hc, hdisj⟩ := h
  rw [List.nodup_append] at hab
  obtain ⟨ha, hb, hab2⟩ := hab
  refine ⟨ha, hb, hc, fun x hx => hab2 hx, ?_, ?_⟩
  · intro x hx hxc
    exact hdisj (List.mem_append.mpr (Or.inl hx)) hxc
  · intro x hx hxc
    exact hdisj (List.mem_append.mpr (Or.inr hx)) hxc

theorem refOf_ptr (s : BufferPool) (p : Nat) : (refOf s p).ptr = p := rfl

/-- BufferPool::acquireFilled preserves the pool invariant. -/
theorem inv_acquireFilled {s : BufferPool} (h : inv s) :
    inv (acquireFilled s).2 := by
  obtain ⟨⟨h1, h2, h3, h4, h5, h6, h7, h8, h9, h10⟩, hnd⟩ := h
  cases hq : s.filledQueue with
  | nil =>
    rw [acquireFilled_nil hq]
    exact ⟨⟨h1, h2, h3, h4, h5, h6, h7, h8, h9, h10⟩, hnd⟩
  | cons p rest =>
    have hq5 : ∀ q ∈ rest, (alookup q s.heap).isSome = true :=
      fun q hqm => h5 q (by rw [hq]; exact List.mem_cons_of_mem _ hqm)
    have hndq : ((s.freeQueue ++ (p :: rest)) ++ s.acquired).Nodup := by
      have hh := hnd
      unfold occupancy at hh
      rw [hq] at hh
      exact hh
    have hsubq : List.Sublist ((s.freeQueue ++ rest) ++ s.acquired)
        ((s.freeQueue ++ (p :: rest)) ++ s.acquired) :=
      ((List.Sublist.refl s.freeQueue).append
        (List.sublist_cons_self p rest)).append (List.Sublist.refl s.acquired)
    cases hl : alookup p s.heap with
    | none =>
      rw [acquireFilled_dangling hq hl]
      refine ⟨⟨h1, h2, h3, h4, hq5, h6, h7, h8, h9, h10⟩, ?_⟩
      exact List.Nodup.sublist hsubq hndq
    | some b =>
      cases hv : validateBuffer s p b with
      | false =>
        rw [acquireFilled_dead hq hl hv]
        refine ⟨⟨h1, h2, h3, h4, hq5, h6, h7, h8, h9, h10⟩, ?_⟩
        exact List.Nodup.sublist hsubq hndq
      | true =>
        rw [acquireFilled_ok hq hl hv]
        refine ⟨⟨?_, ?_, ?_, ?_, ?_, ?_, ?_, ?_, ?_, h10⟩, ?_⟩
        · show ((aupdate p _ s.heap).map Prod.fst).Nodup
          rw [aupdate_keys]
          exact h1
        · exact mapConsistent_aupdate (fun b0 => rfl) h2
        · exact mapBacked_aupdate (fun b0 => rfl) h3
        · intro q hqm
          show (alookup q (aupdate p _ s.heap)).isSome = true
          rw [alookup_aupdate_isSome]
          exact h4 q hqm
        · intro q hqm
          show (alookup q (aupdate p _ s.heap)).isSome = true
          rw [alookup_aupdate_isSome]
          exact hq5 q hqm
        · intro q hqm
          show (alookup q (aupdate p _ s.heap)).isSome = true
          rw [alookup_aupdate_isSome]
          rcases List.mem_cons.mp hqm with h0 | h0
          · rw [h0, hl]; rfl
          · exact h6 q h0
        · intro e he
          show (alookup e.1 (aupdate p _ s.heap)).isSome = true
          rw [alookup_aupdate_isSome]
          exact h7 e he
        · exact ptrBound_aupdate h8
        · exact idBound_aupdate (fun b0 => rfl) h9
        · show ((s.freeQueue ++ rest) ++ (p :: s.acquired)).Nodup
          have hperm : ((s.freeQueue ++ (p :: rest)) ++ s.acquired).Perm
              ((s.freeQueue ++ rest) ++ (p :: s.acquired)) := by
            have hstep1 : (s.freeQueue ++ (p :: rest)).Perm
                (p :: (s.freeQueue ++ rest)) := List.perm_middle
            have hstep2 : (p :: ((s.freeQueue ++ rest) ++ s.acquired)).Perm
                ((s.freeQueue ++ rest) ++ (p :: s.acquired)) :=
              List.perm_middle.symm
            exact (hstep1.append_right s.acquired).trans hstep2
          exact hperm.nodup hndq

/-- BufferPool::submitFilled, applied under the protocol discipline to a
buffer currently handed out, preserves the pool invariant. -/
theorem inv_submit {s : BufferPool} {p : Nat} (hleg : p ∈ s.acquired)
    (h : inv s) : inv (submitFilled s (some (refOf s p))) := by
  obtain ⟨⟨h1, h2, h3, h4, h5, h6, h7, h8, h9, h10⟩, hnd⟩ := h
  cases hv : verifyBufferOwnership s (refOf s p) with
  | false =>
    rw [submitFilled_foreign hv]
    exact ⟨⟨h1, h2, h3, h4, h5, h6, h7, h8, h9, h10⟩, hnd⟩
  | true =>
    rw [submitFilled_own hv]
    obtain ⟨hfr, hfi, hac, hd1, hd2, hd3⟩ := occupancy_split hnd
    refine ⟨⟨?_, ?_, ?_, ?_, ?_, ?_, ?_, ?_, ?_, h10⟩, ?_⟩
    · show ((aupdate p _ s.heap).map Prod.fst).Nodup
      rw [aupdate_keys]
      exact h1
    · exact mapConsistent_aupdate (fun b0 => rfl) h2
    · exact mapBacked_aupdate (fun b0 => rfl) h3
    · intro q hqm
      show (alookup q (aupdate p _ s.heap)).isSome = true
      rw [alookup_aupdate_isSome]
      exact h4 q hqm
    · intro q hqm
      show (alookup q (aupdate p _ s.heap)).isSome = true
      rw [alookup_aupdate_isSome]
      rcases List.mem_append.mp hqm with h0 | h0
      · exact h5 q h0
      · rw [List.mem_singleton.mp h0]
        exact h6 p hleg
    · intro q hqm
      show (alookup q (aupdate p _ s.heap)).isSome = true
      rw [alookup_aupdate_isSome]
      exact h6 q (mem_lerase.mp hqm).1
    · intro e he
      show (alookup e.1 (aupdate p _ s.heap)).isSome = true
      rw [alookup_aupdate_isSome]
      exact h7 e he
    · exact ptrBound_aupdate h8
    · exact idBound_aupdate (fun b0 => rfl) h9
    · show ((s.freeQueue ++ (s.filledQueue ++ [p]))
        ++ lerase p s.acquired).Nodup
      have hperm : ((s.freeQueue ++ (s.filledQueue ++ [p]))
          ++ lerase p s.acquired).Perm
          ((s.freeQueue ++ s.filledQueue) ++ s.acquired) := by
        have perm1 : (s.filledQueue ++ [p]).Perm (p :: s.filledQueue) :=
          List.perm_append_singleton p s.filledQueue
        have step1 := (List.Perm.append_left s.freeQueue perm1).append_right
          (lerase p s.acquired)
        have step2 := (@List.perm_middle _ p s.freeQueue
          s.filledQueue).append_right (lerase p s.acquired)
        have step3 : (p :: ((s.freeQueue ++ s.filledQueue)
            ++ lerase p s.acquired)).Perm
            ((s.freeQueue ++ s.filledQueue) ++ (p :: lerase p s.acquired)) :=
          List.perm_middle.symm
        have step4 : (p :: lerase p s.acquired).Perm s.acquired :=
          (perm_cons_lerase hac hleg).symm
        have step4' := List.Perm.append_left
          (s.freeQueue ++ s.filledQueue) step4
        exact step1.trans (step2.trans (step3.trans step4'))
      exact hperm.symm.nodup hnd

end BufferPool

namespace BufferPool

/-- BufferPool::ejectBuffer, applied under the protocol discipline to a
buffer currently handed out, preserves the pool invariant. -/
theorem inv_eject {s : BufferPool} {p : Nat} (hleg : p ∈ s.acquired)
    (h : inv s) : inv (ejectBuffer s (refOf s p)).2 := by
  obtain ⟨⟨h1, h2, h3, h4, h5, h6, h7, h8, h9, h10⟩, hnd⟩ := h
  cases ht : alookup p s.transient with
  | none =>
    rw [ejectBuffer_foreign ht]
    exact ⟨⟨h1, h2, h3, h4, h5, h6, h7, h8, h9, h10⟩, hnd⟩
  | some hh =>
    have hlive : (alookup p s.heap).isSome = true := h7 (p, hh) (alookup_mem ht)
    cases hl : alookup p s.heap with
    | none => rw [hl] at hlive; simp at hlive
    | some b =>
      rw [ejectBuffer_transient ht hl]
      simp only [refOf_ptr]
      obtain ⟨hfr, hfi, hac, hd1, hd2, hd3⟩ := occupancy_split hnd
      have hpb : (p, b) ∈ s.heap := alookup_mem hl
      refine ⟨⟨?_, ?_, ?_, ?_, ?_, ?_, ?_, ?_, ?_, h10⟩, ?_⟩
      · show ((aerase p s.heap).map Prod.fst).Nodup
        exact List.Nodup.sublist ((aerase_sublist p s.heap).map Prod.fst) h1
      · intro e he
        obtain ⟨hemem, hep⟩ := mem_aerase he
        have horig := h2 e hemem
        have hne : e.2.id ≠ b.id := by
          intro heq
          rw [heq] at horig
          rw [h2 (p, b) hpb] at horig
          exact hep (Option.some.inj horig.symm)
        rw [alookup_aerase_ne hne]
        exact horig
      · intro e he
        obtain ⟨hemem, heb⟩ := mem_aerase he
        have horig := h3 e hemem
        have hne : e.2 ≠ p := by
          intro heq
          rw [heq, hl] at horig
          simp only [Option.map_some', Option.some.injEq] at horig
          exact heb horig.symm
        rw [alookup_aerase_ne hne]
        exact horig
      · intro q hqm
        have hqp : q ≠ p := fun he => hd2 q hqm (he ▸ hleg)
        show (alookup q (aerase p s.heap)).isSome = true
        rw [alookup_aerase_ne hqp]
        exact h4 q hqm
      · intro q hqm
        have hqp : q ≠ p := fun he => hd3 q hqm (he ▸ hleg)
        show (alookup q (aerase p s.heap)).isSome = true
        rw [alookup_aerase_ne hqp]
        exact h5 q hqm
      · intro q hqm
        obtain ⟨hqa, hqp⟩ := mem_lerase.mp hqm
        show (alookup q (aerase p s.heap)).isSome = true
        rw [alookup_aerase_ne hqp]
        exact h6 q hqa
      · intro e he
        obtain ⟨hemem, hep⟩ := mem_aerase he
        show (alookup e.1 (aerase p s.heap)).isSome = true
        rw [alookup_aerase_ne hep]
        exact h7 e hemem
      · intro e he
        exact h8 e (mem_aerase he).1
      · intro e he
        exact h9 e (mem_aerase he).1
      · show ((s.freeQueue ++ s.filledQueue) ++ lerase p s.acquired).Nodup
        have hsub : List.Sublist
            ((s.freeQueue ++ s.filledQueue) ++ lerase p s.acquired)
            ((s.freeQueue ++ s.filledQueue) ++ s.acquired) :=
          (List.Sublist.refl _).append (lerase_sublist p s.acquired)
        exact List.Nodup.sublist hsub hnd

/-- BufferPool::releaseFilled, applied under the protocol discipline to a
buffer currently handed out, preserves the pool invariant. -/
theorem inv_release {s : BufferPool} {p : Nat} (hleg : p ∈ s.acquired)
    (h : inv s) : inv (releaseFilled s (some (refOf s p))) := by
  cases ht : alookup p s.transient with
  | some hh =>
    rw [releaseFilled_transient ht]
    exact inv_eject hleg h
  | none =>
    obtain ⟨⟨h1, h2, h3, h4, h5, h6, h7, h8, h9, h10⟩, hnd⟩ := h
    cases hv : verifyBufferOwnership s (refOf s p) with
    | false =>
      rw [releaseFilled_foreign ht hv]
      exact ⟨⟨h1, h2, h3, h4, h5, h6, h7, h8, h9, h10⟩, hnd⟩
    | true =>
      rw [releaseFilled_own ht hv]
      obtain ⟨hfr, hfi, hac, hd1, hd2, hd3⟩ := occupancy_split hnd
      refine ⟨⟨?_, ?_, ?_, ?_, ?_, ?_, ?_, ?_, ?_, h10⟩, ?_⟩
      · show ((aupdate p _ s.heap).map Prod.fst).Nodup
        rw [aupdate_keys]
        exact h1
      · exact mapConsistent_aupdate (fun b0 => rfl) h2
      · exact mapBacked_aupdate (fun b0 => rfl) h3
      · intro q hqm
        show (alookup q (aupdate p _ s.heap)).isSome = true
        rw [alookup_aupdate_isSome]
        rcases List.mem_append.mp hqm with h0 | h0
        · exact h4 q h0
        · rw [List.mem_singleton.mp h0]
          exact h6 p hleg
      · intro q hqm
        show (alookup q (aupdate p _ s.heap)).isSome = true
        rw [alookup_aupdate_isSome]
        exact h5 q hqm
      · intro q hqm
        show (alookup q (aupdate p _ s.heap)).isSome = true
        rw [alookup_aupdate_isSome]
        exact h6 q (mem_lerase.mp hqm).1
      · intro e he
        show (alookup e.1 (aupdate p _ s.heap)).isSome = true
        rw [alookup_aupdate_isSome]
        exact h7 e he
      · exact ptrBound_aupdate h8
      · exact idBound_aupdate (fun b0 => rfl) h9
      · show (((s.freeQueue ++ [p]) ++ s.filledQueue)
          ++ lerase p s.acquired).Nodup
        have hperm : (((s.freeQueue ++ [p]) ++ s.filledQueue)
            ++ lerase p s.acquired).Perm
            ((s.freeQueue ++ s.filledQueue) ++ s.acquired) := by
          have perm1 : (s.freeQueue ++ [p]).Perm (p :: s.freeQueue) :=
            List.perm_append_singleton p s.freeQueue
          have step1 := (perm1.append_right s.filledQueue).append_right
            (lerase p s.acquired)
          have step3 : (p :: ((s.freeQueue ++ s.filledQueue)
              ++ lerase p s.acquired)).Perm
              ((s.freeQueue ++ s.filledQueue) ++ (p :: lerase p s.acquired)) :=
            List.perm_middle.symm
          have step4 : (p :: lerase p s.acquired).Perm s.acquired :=
            (perm_cons_lerase hac hleg).symm
          have step4' := List.Perm.append_left
            (s.freeQueue ++ s.filledQueue) step4
          exact step1.trans (step3.trans step4')
        exact hperm.symm.nodup hnd

/-- BufferPool::injectFilledBuffer preserves the pool invariant. -/
theorem inv_inject {s : BufferPool} {h : BufferHandle} (hi : inv s) :
    inv (injectFilledBuffer s h).2 := by
  obtain ⟨⟨h1, h2, h3, h4, h5, h6, h7, h8, h9, h10⟩, hnd⟩ := hi
  cases hv : h.isValidB with
  | false =>
    rw [injectFilledBuffer_invalid hv]
    exact ⟨⟨h1, h2, h3, h4, h5, h6, h7, h8, h9, h10⟩, hnd⟩
  | true =>
    rw [injectFilledBuffer_valid hv]
    have hfreshp : ∀ q, (alookup q s.heap).isSome = true → q < s.nextPtr := by
      intro q hq
      rcases List.mem_map.mp (alookup_isSome_mem_keys hq) with ⟨e, he, hk⟩
      exact hk ▸ h8 e he
    have hPfree : s.nextPtr ∉ s.freeQueue :=
      fun hmem => absurd (hfreshp _ (h4 _ hmem)) (lt_irrefl _)
    have hPfilled : s.nextPtr ∉ s.filledQueue :=
      fun hmem => absurd (hfreshp _ (h5 _ hmem)) (lt_irrefl _)
    have hPacq : s.nextPtr ∉ s.acquired :=
      fun hmem => absurd (hfreshp _ (h6 _ hmem)) (lt_irrefl _)
    refine ⟨⟨?_, ?_, ?_, ?_, ?_, ?_, ?_, ?_, ?_, ?_⟩, ?_⟩
    · show (s.nextPtr :: s.heap.map Prod.fst).Nodup
      refine List.nodup_cons.mpr ⟨?_, h1⟩
      intro hmem
      rcases List.mem_map.mp hmem with ⟨e, he, hk⟩
      exact absurd (hk ▸ h8 e he) (lt_irrefl _)
    · intro e he
      rcases List.mem_cons.mp he with h0 | h0
      · rw [h0]
        exact alookup_cons_self s.nextId s.nextPtr s.bufferMap
      · have hne : s.nextId ≠ e.2.id := fun heq => absurd (h9 e h0)
          (heq ▸ lt_irrefl _)
        rw [alookup_cons_ne _ _ hne]
        exact h2 e h0
    · intro e he
      rcases List.mem_cons.mp he with h0 | h0
      · rw [h0]
        show (alookup s.nextPtr ((s.nextPtr, _) :: s.heap)).map Buffer.id
          = some s.nextId
        rw [alookup_cons_self]
        rfl
      · have horig := h3 e h0
        have hsome : (alookup e.2 s.heap).isSome = true := by
          cases hx : alookup e.2 s.heap with
          | none => rw [hx] at horig; simp at horig
          | some bb => rfl
        have hne : s.nextPtr ≠ e.2 := fun heq =>
          absurd (hfreshp e.2 hsome) (heq ▸ lt_irrefl _)
        rw [alookup_cons_ne _ _ hne]
        exact horig
    · intro q hqm
      have hne : s.nextPtr ≠ q := fun heq => hPfree (heq ▸ hqm)
      show (alookup q ((s.nextPtr, _) :: s.heap)).isSome = true
      rw [alookup_cons_ne _ _ hne]
      exact h4 q hqm
    · intro q hqm
      rcases List.mem_append.mp hqm with h0 | h0
      · have hne : s.nextPtr ≠ q := fun heq => hPfilled (heq ▸ h0)
        show (alookup q ((s.nextPtr, _) :: s.heap)).isSome = true
        rw [alookup_cons_ne _ _ hne]
        exact h5 q h0
      · rw [List.mem_singleton.mp h0]
        show (alookup s.nextPtr ((s.nextPtr, _) :: s.heap)).isSome = true
        rw [alookup_cons_self]
        rfl
    · intro q hqm
      have hne : s.nextPtr ≠ q := fun heq => hPacq (heq ▸ hqm)
      show (alookup q ((s.nextPtr, _) :: s.heap)).isSome = true
      rw [alookup_cons_ne _ _ hne]
      exact h6 q hqm
    · intro e he
      rcases List.mem_cons.mp he with h0 | h0
      · rw [h0]
        show (alookup s.nextPtr ((s.nextPtr, _) :: s.heap)).isSome = true
        rw [alookup_cons_self]
        rfl
      · have hsome := h7 e h0
        by_cases hne : s.nextPtr = e.1
        · show (alookup e.1 ((s.nextPtr, _) :: s.heap)).isSome = true
          rw [← hne, alookup_cons_self]
          rfl
        · show (alookup e.1 ((s.nextPtr, _) :: s.heap)).isSome = true
          rw [alookup_cons_ne _ _ hne]
          exact hsome
    · intro e he
      rcases List.mem_cons.mp he with h0 | h0
      · rw [h0]
        exact Nat.lt_succ_self _
      · exact Nat.lt_succ_of_lt (h8 e h0)
    · intro e he
      rcases List.mem_cons.mp he with h0 | h0
      · rw [h0]
        exact Nat.lt_succ_self _
      · exact Nat.lt_succ_of_lt (h9 e h0)
    · exact Nat.le_succ_of_le h10
    · show ((s.freeQueue ++ (s.filledQueue ++ [s.nextPtr]))
        ++ s.acquired).Nodup
      have hcons : (s.nextPtr :: ((s.freeQueue ++ s.filledQueue)
          ++ s.acquired)).Nodup := by
        refine List.nodup_cons.mpr ⟨?_, hnd⟩
        intro hmem
        rcases List.mem_append.mp hmem with h0 | h0
        · rcases List.mem_append.mp h0 with h1' | h1'
          · exact hPfree h1'
          · exact hPfilled h1'
        · exact hPacq h0
      have hperm : (s.nextPtr :: ((s.freeQueue ++ s.filledQueue)
          ++ s.acquired)).Perm
          ((s.freeQueue ++ (s.filledQueue ++ [s.nextPtr])) ++ s.acquired) := by
        have perm1 : (s.nextPtr :: s.filledQueue).Perm
            (s.filledQueue ++ [s.nextPtr]) :=
          (List.perm_append_singleton s.nextPtr s.filledQueue).symm
        have step2 : (s.nextPtr :: (s.freeQueue ++ s.filledQueue)).Perm
            (s.freeQueue ++ (s.nextPtr :: s.filledQueue)) :=
          List.perm_middle.symm
        have step3 := (step2.trans
          (List.Perm.append_left s.freeQueue perm1)).append_right s.acquired
        exact step3
      exact hperm.nodup hcons

end BufferPool

namespace BufferPool

/-- Every client call respecting the protocol discipline preserves the pool
invariant. -/
theorem inv_step {s : BufferPool} {op : Op} (hleg : legalB s op = true)
    (h : inv s) : inv (step s op) := by
  cases op with
  | acqFree => exact inv_acquireFree h
  | acqFilled => exact inv_acquireFilled h
  | submit p => exact inv_submit (of_decide_eq_true hleg) h
  | release p => exact inv_release (of_decide_eq_true hleg) h
  | inject hh => exact inv_inject h
  | eject p => exact inv_eject (of_decide_eq_true hleg) h

/-- The pool invariant is preserved along every protocol-respecting trace of
client calls. -/
theorem inv_runOps {ops : List Op} : ∀ {s : BufferPool},
    legalTraceB s ops = true → inv s → inv (runOps s ops) := by
  induction ops with
  | nil => intro s _ h; exact h
  | cons op ops ih =>
    intro s hleg h
    simp only [legalTraceB, Bool.and_eq_true] at hleg
    exact ih hleg.2 (inv_step hleg.1 h)

/-- A buffer address that sits in no queue, is in nobody's hands, and is not
a future fresh address.  Such an address can never again be returned by an
acquire call. -/
abbrev banished (s : BufferPool) (p : Nat) : Prop :=
  p ∉ s.freeQueue ∧ p ∉ s.filledQueue ∧ p ∉ s.acquired ∧ p < s.nextPtr

theorem banished_step {s : BufferPool} {op : Op} {p : Nat}
    (hleg : legalB s op = true) (hb : banished s p) :
    banished (step s op) p := by
  obtain ⟨hbf, hbq, hba, hbn⟩ := hb
  cases op with
  | acqFree =>
    show banished (acquireFree s).2 p
    cases hq : s.freeQueue with
    | nil => rw [acquireFree_nil hq]; exact ⟨hbf, hbq, hba, hbn⟩
    | cons q rest =>
      have hpq : p ≠ q := fun he => hbf (hq ▸ (he ▸ List.mem_cons_self q rest))
      have hprest : p ∉ rest :=
        fun he => hbf (hq ▸ List.mem_cons_of_mem _ he)
      cases hl : alookup q s.heap with
      | none =>
        rw [acquireFree_dangling hq hl]
        exact ⟨hprest, hbq, hba, hbn⟩
      | some b =>
        cases hv : validateBuffer s q b with
        | false =>
          rw [acquireFree_dead hq hl hv]
          refine ⟨?_, hbq, hba, hbn⟩
          intro hmem
          rcases List.mem_append.mp hmem with h0 | h0
          · exact hprest h0
          · exact hpq (List.mem_singleton.mp h0)
        | true =>
          rw [acquireFree_ok hq hl hv]
          refine ⟨hprest, hbq, ?_, hbn⟩
          intro hmem
          rcases List.mem_cons.mp hmem with h0 | h0
          · exact hpq h0
          · exact hba h0
  | acqFilled =>
    show banished (acquireFilled s).2 p
    cases hq : s.filledQueue with
    | nil => rw [acquireFilled_nil hq]; exact ⟨hbf, hbq, hba, hbn⟩
    | cons q rest =>
      have hpq : p ≠ q := fun he => hbq (hq ▸ (he ▸ List.mem_cons_self q rest))
      have hprest : p ∉ rest :=
        fun he => hbq (hq ▸ List.mem_cons_of_mem _ he)
      cases hl : alookup q s.heap with
      | none =>
        rw [acquireFilled_dangling hq hl]
        exact ⟨hbf, hprest, hba, hbn⟩
      | some b =>
        cases hv : validateBuffer s q b with
        | false =>
          rw [acquireFilled_dead hq hl hv]
          exact ⟨hbf, hprest, hba, hbn⟩
        | true =>
          rw [acquireFilled_ok hq hl hv]
          refine ⟨hbf, hprest, ?_, hbn⟩
          intro hmem
          rcases List.mem_cons.mp hmem with h0 | h0
          · exact hpq h0
          · exact hba h0
  | submit q =>
    have hq : q ∈ s.acquired := of_decide_eq_true hleg
    have hpq : p ≠ q := fun he => hba (he ▸ hq)
    show banished (submitFilled s (some (refOf s q))) p
    cases hv : verifyBufferOwnership s (refOf s q) with
    | false => rw [submitFilled_foreign hv]; exact ⟨hbf, hbq, hba, hbn⟩
    | true =>
      rw [submitFilled_own hv]
      simp only [refOf_ptr]
      refine ⟨hbf, ?_, ?_, hbn⟩
      · intro hmem
        rcases List.mem_append.mp hmem with h0 | h0
        · exact hbq h0
        · exact hpq (List.mem_singleton.mp h0)
      · intro hmem
        exact hba (mem_lerase.mp hmem).1
  | release q =>
    have hq : q ∈ s.acquired := of_decide_eq_true hleg
    have hpq : p ≠ q := fun he => hba (he ▸ hq)
    show banished (releaseFilled s (some (refOf s q))) p
    cases ht : alookup q s.transient with
    | some hh =>
      rw [releaseFilled_transient ht]
      show banished (ejectBuffer s (refOf s q)).2 p
      cases ht2 : alookup q s.transient with
      | none => rw [ht2] at ht; cases ht
      | some hh2 =>
        cases hl : alookup q s.heap with
        | none =>
          unfold ejectBuffer
          simp only [refOf_ptr, ht2, hl]
          exact ⟨hbf, hbq, fun hmem => hba (mem_lerase.mp hmem).1, hbn⟩
        | some b =>
          rw [ejectBuffer_transient ht2 hl]
          simp only [refOf_ptr]
          exact ⟨hbf, hbq, fun hmem => hba (mem_lerase.mp hmem).1, hbn⟩
    | none =>
      cases hv : verifyBufferOwnership s (refOf s q) with
      | false => rw [releaseFilled_foreign ht hv]; exact ⟨hbf, hbq, hba, hbn⟩
      | true =>
        rw [releaseFilled_own ht hv]
        simp only [refOf_ptr]
        refine ⟨?_, hbq, ?_, hbn⟩
        · intro hmem
          rcases List.mem_append.mp hmem with h0 | h0
          · exact hbf h0
          · exact hpq (List.mem_singleton.mp h0)
        · intro hmem
          exact hba (mem_lerase.mp hmem).1
  | inject hh =>
    show banished (injectFilledBuffer s hh).2 p
    cases hv : hh.isValidB with
    | false => rw [injectFilledBuffer_invalid hv]; exact ⟨hbf, hbq, hba, hbn⟩
    | true =>
      rw [injectFilledBuffer_valid hv]
      refine ⟨hbf, ?_, hba, Nat.lt_succ_of_lt hbn⟩
      intro hmem
      rcases List.mem_append.mp hmem with h0 | h0
      · exact hbq h0
      · exact absurd (List.mem_singleton.mp h0 ▸ hbn) (lt_irrefl _)
  | eject q =>
    have hq : q ∈ s.acquired := of_decide_eq_true hleg
    show banished (ejectBuffer s (refOf s q)).2 p
    cases ht : alookup q s.transient with
    | none => rw [ejectBuffer_foreign ht]; exact ⟨hbf, hbq, hba, hbn⟩
    | some hh =>
      cases hl : alookup q s.heap with
      | none =>
        unfold ejectBuffer
        simp only [refOf_ptr, ht, hl]
        exact ⟨hbf, hbq, fun hmem => hba (mem_lerase.mp hmem).1, hbn⟩
      | some b =>
        rw [ejectBuffer_transient ht hl]
        simp only [refOf_ptr]
        exact ⟨hbf, hbq, fun hmem => hba (mem_lerase.mp hmem).1, hbn⟩

/-- Banishment persists along every protocol-respecting trace. -/
theorem banished_runOps {ops : List Op} : ∀ {s : BufferPool} {p : Nat},
    legalTraceB s ops = true → banished s p →
    banished (runOps s ops) p := by
  induction ops with
  | nil => intro s p _ hb; exact hb
  | cons op ops ih =>
    intro s p hleg hb
    simp only [legalTraceB, Bool.and_eq_true] at hleg
    exact ih hleg.2 (banished_step hleg.1 hb)

/-- In a well-formed pool every address occupying a place is live. -/
theorem occupancy_live {s : BufferPool} (hWF : WF s) :
    ∀ p ∈ occupancy s, (alookup p s.heap).isSome = true := by
  obtain ⟨h1, h2, h3, h4, h5, h6, h7, h8, h9, h10⟩ := hWF
  intro p hp
  rcases List.mem_append.mp hp with h0 | h0
  · rcases List.mem_append.mp h0 with h1' | h1'
    · exact h4 p h1'
    · exact h5 p h1'
  · exact h6 p h0

/-- In a well-formed pool the id read through a live address determines the
address: two live addresses with the same id are equal. -/
theorem idAt_inj {s : BufferPool} (hWF : WF s) {p q : Nat}
    (hp : (alookup p s.heap).isSome = true)
    (hq : (alookup q s.heap).isSome = true)
    (hid : idAt s p = idAt s q) : p = q := by
  obtain ⟨h1, h2, h3, h4, h5, h6, h7, h8, h9, h10⟩ := hWF
  cases hbp : alookup p s.heap with
  | none => rw [hbp] at hp; simp at hp
  | some bp =>
    cases hbq : alookup q s.heap with
    | none => rw [hbq] at hq; simp at hq
    | some bq =>
      unfold idAt at hid
      rw [hbp, hbq] at hid
      simp only [Option.map_some', Option.some.injEq] at hid
      have hcp := h2 (p, bp) (alookup_mem hbp)
      have hcq := h2 (q, bq) (alookup_mem hbq)
      simp only at hcp hcq
      rw [hid] at hcp
      rw [hcp] at hcq
      exact Option.some.inj hcq

end BufferPool

/-! ## Validation helper lemmas -/

namespace BufferPool

theorem livenessOk_owned {s : BufferPool} {b : Buffer}
    (h : b.ownership = Ownership.owned) : livenessOk s b = true := by
  unfold livenessOk
  rw [h]

theorem validateBuffer_parts {s : BufferPool} {p : Nat} {b : Buffer}
    (h : validateBuffer s p b = true) :
    b.isValidB = true ∧ alookup b.id s.bufferMap = some p ∧
    livenessOk s b = true ∧ b.userValid = true := by
  unfold validateBuffer verifyBufferOwnership at h
  simp only [Bool.and_eq_true, decide_eq_true_eq] at h
  exact ⟨h.1.1.1, h.1.1.2, h.1.2, h.2⟩

theorem validateBuffer_true_of {s : BufferPool} {p : Nat} {b : Buffer}
    (hvb : b.isValidB = true)
    (hmap : alookup b.id s.bufferMap = some p)
    (hlive : livenessOk s b = true)
    (huv : b.userValid = true) : validateBuffer s p b = true := by
  unfold validateBuffer verifyBufferOwnership
  simp [hvb, hmap, hlive, huv]

theorem verifyOwn_refOf {t : BufferPool} {p : Nat} {bb : Buffer}
    (h : alookup p t.heap = some bb)
    (hm : alookup bb.id t.bufferMap = some p) :
    verifyBufferOwnership t (refOf t p) = true := by
  unfold verifyBufferOwnership refOf idAt
  rw [h]
  simp [hm]

end BufferPool

/-! ## Claim C3 -/

namespace BufferPool

/-- C3: for a tracked-external pool whose free-queue head has its liveness
flag false or its weak liveness reference expired, acquireFree does not hand
the buffer out: it pushes the buffer back at the tail of the free queue,
leaves every buffer record (state, reference count) and every other pool
component untouched, and returns null. -/
theorem acquireFree_dead_tracked_external_pushed_back
    (s : BufferPool) (p : Nat) (rest : List Nat) (b : Buffer)
    (hq : s.freeQueue = p :: rest)
    (hl : alookup p s.heap = some b)
    (hext : b.ownership = Ownership.external)
    (hid : b.id < s.trackers.length)
    (hdead : s.trackers.getD b.id none ≠ some true) :
    acquireFree s = (none, { s with freeQueue := rest ++ [p] }) := by
  have hlive : livenessOk s b = false := by
    unfold livenessOk
    rw [hext, if_pos hid]
    exact decide_eq_false hdead
  have hv : validateBuffer s p b = false := by
    unfold validateBuffer
    rw [hlive]
    simp
  exact acquireFree_dead hq hl hv

/-- Witness for C3: a two-buffer tracked pool whose first handle has been
destroyed (flag false); acquireFree rotates the dead buffer to the tail and
returns null. -/
theorem acquireFree_dead_tracked_external_pushed_back_witness :
    (mkTrackedPool [⟨400, 0, 8, true, false, some false, 1⟩,
        ⟨600, 0, 8, true, false, some true, 2⟩]).freeQueue = 0 :: [1] ∧
    alookup 0 (mkTrackedPool [⟨400, 0, 8, true, false, some false, 1⟩,
        ⟨600, 0, 8, true, false, some true, 2⟩]).heap =
      some { id := 0, virt := 400, phys := 0, size := 8,
             ownership := Ownership.external, state := BufState.idle,
             refCount := 0, userValid := true } ∧
    acquireFree (mkTrackedPool [⟨400, 0, 8, true, false, some false, 1⟩,
        ⟨600, 0, 8, true, false, some true, 2⟩]) =
      (none, { mkTrackedPool [⟨400, 0, 8, true, false, some false, 1⟩,
          ⟨600, 0, 8, true, false, some true, 2⟩] with
            freeQueue := [1] ++ [0] }) :=
  ⟨by decide, by decide,
    acquireFree_dead_tracked_external_pushed_back _ 0 [1]
      { id := 0, virt := 400, phys := 0, size := 8,
        ownership := Ownership.external, state := BufState.idle,
        refCount := 0, userValid := true }
      (by decide) (by decide) (by decide) (by decide) (by decide)⟩

end BufferPool

/-! ## Claim C7 -/

namespace BufferPool

/-- C7: a non-transient buffer that was acquired via acquireFree and never
submitted is put back onto the free queue by releaseFilled, with reference
count 0 and state Idle (the producer worker's read-failure path,
VideoProducer.cpp line 275). -/
theorem release_unsubmitted_buffer_recycles
    (s : BufferPool) (p : Nat) (rest : List Nat) (b : Buffer)
    (hq : s.freeQueue = p :: rest)
    (hl : alookup p s.heap = some b)
    (hv : validateBuffer s p b = true)
    (hrc : b.refCount = 0)
    (htrans : alookup p s.transient = none) :
    (acquireFree s).1 = some p ∧
    (releaseFilled (acquireFree s).2
      (some (refOf (acquireFree s).2 p))).freeQueue = rest ++ [p] ∧
    alookup p (releaseFilled (acquireFree s).2
      (some (refOf (acquireFree s).2 p))).heap =
      some { b with state := BufState.idle, refCount := 0 } := by
  have e1 := acquireFree_ok hq hl hv
  obtain ⟨hvb, hmap, hlive, huv⟩ := validateBuffer_parts hv
  have hl1 : alookup p (acquireFree s).2.heap =
      some { b with state := BufState.lockedByProducer,
                    refCount := b.refCount + 1 } := by
    rw [e1]
    show alookup p (aupdate p _ s.heap) = _
    rw [alookup_aupdate_self, hl]
    rfl
  have hmap1 : alookup b.id (acquireFree s).2.bufferMap = some p := by
    rw [e1]
    exact hmap
  have hv1 : verifyBufferOwnership (acquireFree s).2
      (refOf (acquireFree s).2 p) = true :=
    verifyOwn_refOf hl1 hmap1
  have ht1 : alookup (refOf (acquireFree s).2 p).ptr
      (acquireFree s).2.transient = none := by
    rw [e1]
    exact htrans
  rw [releaseFilled_own ht1 hv1]
  refine ⟨?_, ?_, ?_⟩
  · rw [e1]
  · show (acquireFree s).2.freeQueue ++ [(refOf (acquireFree s).2 p).ptr]
      = rest ++ [p]
    rw [e1]
    rfl
  · show alookup p (aupdate p _ (acquireFree s).2.heap) = _
    rw [alookup_aupdate_self, hl1]
    show some _ = _
    rw [hrc]
    norm_num

/-- Witness for C7: on a fresh two-buffer owned pool, acquire buffer 0 and
give it straight back with releaseFilled. -/
theorem release_unsubmitted_buffer_recycles_witness :
    validateBuffer (mkOwnedPool 2 8) 0
      { id := 0, virt := 4096, phys := 0, size := 8,
        ownership := Ownership.owned, state := BufState.idle,
        refCount := 0, userValid := true } = true ∧
    (acquireFree (mkOwnedPool 2 8)).1 = some 0 ∧
    (releaseFilled (acquireFree (mkOwnedPool 2 8)).2
      (some (refOf (acquireFree (mkOwnedPool 2 8)).2 0))).freeQueue
      = [1] ++ [0] :=
  ⟨by decide, (release_unsubmitted_buffer_recycles (mkOwnedPool 2 8) 0 [1]
      { id := 0, virt := 4096, phys := 0, size := 8,
        ownership := Ownership.owned, state := BufState.idle,
        refCount := 0, userValid := true }
      (by decide) (by decide) (by decide) (by decide) (by decide)).1,
    (release_unsubmitted_buffer_recycles (mkOwnedPool 2 8) 0 [1]
      { id := 0, virt := 4096, phys := 0, size := 8,
        ownership := Ownership.owned, state := BufState.idle,
        refCount := 0, userValid := true }
      (by decide) (by decide) (by decide) (by decide) (by decide)).2.1⟩

end BufferPool

/-! ## Claim C1 -/

namespace BufferPool

/-- C1: on an Owned-mode pool at quiescence (filled queue empty, head free
buffer with reference count 0), acquireFree, submitFilled on the returned
buffer, acquireFilled, then releaseFilled on the returned buffer is the
identity on that buffer: acquireFilled hands back the very buffer (same
address, same id) that was submitted, and afterwards the buffer is Idle with
reference count 0 and sits at the tail of the free queue. -/
theorem owned_pool_acquire_submit_consume_release_roundtrip
    (s : BufferPool) (p : Nat) (rest : List Nat) (b : Buffer)
    (hinv : inv s)
    (hq : s.freeQueue = p :: rest)
    (hl : alookup p s.heap = some b)
    (hown : b.ownership = Ownership.owned)
    (hvb : b.isValidB = true)
    (huv : b.userValid = true)
    (hrc : b.refCount = 0)
    (hfq : s.filledQueue = [])
    (htrans : alookup p s.transient = none) :
    (acquireFree s).1 = some p ∧
    (acquireFilled (submitFilled (acquireFree s).2
      (some (refOf (acquireFree s).2 p)))).1 = some p ∧
    idAt (submitFilled (acquireFree s).2
      (some (refOf (acquireFree s).2 p))) p = some b.id ∧
    alookup p (releaseFilled
      (acquireFilled (submitFilled (acquireFree s).2
        (some (refOf (acquireFree s).2 p)))).2
      (some (refOf (acquireFilled (submitFilled (acquireFree s).2
        (some (refOf (acquireFree s).2 p)))).2 p))).heap =
      some { b with state := BufState.idle, refCount := 0 } ∧
    (releaseFilled
      (acquireFilled (submitFilled (acquireFree s).2
        (some (refOf (acquireFree s).2 p)))).2
      (some (refOf (acquireFilled (submitFilled (acquireFree s).2
        (some (refOf (acquireFree s).2 p)))).2 p))).freeQueue
      = rest ++ [p] ∧
    (releaseFilled
      (acquireFilled (submitFilled (acquireFree s).2
        (some (refOf (acquireFree s).2 p)))).2
      (some (refOf (acquireFilled (submitFilled (acquireFree s).2
        (some (refOf (acquireFree s).2 p)))).2 p))).filledQueue = [] := by
  have hmap : alookup b.id s.bufferMap = some p :=
    hinv.1.2.1 (p, b) (alookup_mem hl)
  have hv : validateBuffer s p b = true :=
    validateBuffer_true_of hvb hmap (livenessOk_owned hown) huv
  have e1 := acquireFree_ok hq hl hv
  have hl1 : alookup p (acquireFree s).2.heap =
      some { b with state := BufState.lockedByProducer,
                    refCount := b.refCount + 1 } := by
    rw [e1]
    show alookup p (aupdate p _ s.heap) = _
    rw [alookup_aupdate_self, hl]
    rfl
  have hmap1 : alookup b.id (acquireFree s).2.bufferMap = some p := by
    rw [e1]
    exact hmap
  have hv1 : verifyBufferOwnership (acquireFree s).2
      (refOf (acquireFree s).2 p) = true :=
    verifyOwn_refOf hl1 hmap1
  have e2 := submitFilled_own hv1
  have hl2 : alookup p (submitFilled (acquireFree s).2
      (some (refOf (acquireFree s).2 p))).heap =
      some { b with state := BufState.readyForConsume,
                    refCount := b.refCount + 1 } := by
    rw [e2]
    show alookup p (aupdate p _ (acquireFree s).2.heap) = _
    rw [alookup_aupdate_self, hl1]
    rfl
  have hfq2 : (submitFilled (acquireFree s).2
      (some (refOf (acquireFree s).2 p))).filledQueue = p :: [] := by
    rw [e2]
    show (acquireFree s).2.filledQueue ++ [(refOf (acquireFree s).2 p).ptr]
      = p :: []
    rw [e1]
    show s.filledQueue ++ [p] = p :: []
    rw [hfq]
    rfl
  have hmap2 : alookup b.id (submitFilled (acquireFree s).2
      (some (refOf (acquireFree s).2 p))).bufferMap = some p := by
    rw [e2]
    exact hmap1
  have hv2 : validateBuffer (submitFilled (acquireFree s).2
      (some (refOf (acquireFree s).2 p))) p
      { b with state := BufState.readyForConsume,
               refCount := b.refCount + 1 } = true :=
    validateBuffer_true_of hvb hmap2 (livenessOk_owned hown) huv
  have e3 := acquireFilled_ok hfq2 hl2 hv2
  have hl3 : alookup p (acquireFilled (submitFilled (acquireFree s).2
      (some (refOf (acquireFree s).2 p)))).2.heap =
      some { b with state := BufState.lockedByConsumer,
                    refCount := b.refCount + 1 } := by
    rw [e3]
    show alookup p (aupdate p _ (submitFilled (acquireFree s).2
      (some (refOf (acquireFree s).2 p))).heap) = _
    rw [alookup_aupdate_self, hl2]
    rfl
  have hmap3 : alookup b.id (acquireFilled (submitFilled (acquireFree s).2
      (some (refOf (acquireFree s).2 p)))).2.bufferMap = some p := by
    rw [e3]
    exact hmap2
  have hv3 : verifyBufferOwnership
      (acquireFilled (submitFilled (acquireFree s).2
        (some (refOf (acquireFree s).2 p)))).2
      (refOf (acquireFilled (submitFilled (acquireFree s).2
        (some (refOf (acquireFree s).2 p)))).2 p) = true :=
    verifyOwn_refOf hl3 hmap3
  have ht3 : alookup (refOf (acquireFilled (submitFilled (acquireFree s).2
      (some (refOf (acquireFree s).2 p)))).2 p).ptr
      (acquireFilled (submitFilled (acquireFree s).2
        (some (refOf (acquireFree s).2 p)))).2.transient = none := by
    rw [e3, e2, e1]
    exact htrans
  have e4 := releaseFilled_own ht3 hv3
  refine ⟨?_, ?_, ?_, ?_, ?_, ?_⟩
  · rw [e1]
  · rw [e3]
  · show (alookup p (submitFilled (acquireFree s).2
      (some (refOf (acquireFree s).2 p))).heap).map Buffer.id = some b.id
    rw [hl2]
    rfl
  · rw [e4]
    show alookup p (aupdate p _ (acquireFilled (submitFilled (acquireFree s).2
      (some (refOf (acquireFree s).2 p)))).2.heap) = _
    rw [alookup_aupdate_self, hl3]
    show some _ = _
    rw [hrc]
    norm_num
  · rw [e4]
    show (acquireFilled (submitFilled (acquireFree s).2
      (some (refOf (acquireFree s).2 p)))).2.freeQueue
        ++ [(refOf (acquireFilled (submitFilled (acquireFree s).2
          (some (refOf (acquireFree s).2 p)))).2 p).ptr] = rest ++ [p]
    rw [e3, e2, e1]
    rfl
  · rw [e4]
    show (acquireFilled (submitFilled (acquireFree s).2
      (some (refOf (acquireFree s).2 p)))).2.filledQueue = []
    rw [e3]

end BufferPool

namespace BufferPool

/-- Witness for C1: the round trip on a fresh two-buffer owned pool moves
buffer 0 through all four operations and back to the tail of the free
queue. -/
theorem owned_pool_acquire_submit_consume_release_roundtrip_witness :
    inv (mkOwnedPool 2 8) ∧
    (acquireFree (mkOwnedPool 2 8)).1 = some 0 ∧
    (releaseFilled
      (acquireFilled (submitFilled (acquireFree (mkOwnedPool 2 8)).2
        (some (refOf (acquireFree (mkOwnedPool 2 8)).2 0)))).2
      (some (refOf (acquireFilled (submitFilled
        (acquireFree (mkOwnedPool 2 8)).2
        (some (refOf (acquireFree (mkOwnedPool 2 8)).2 0)))).2 0))).freeQueue
      = [1] ++ [0] :=
  ⟨by decide,
   (owned_pool_acquire_submit_consume_release_roundtrip (mkOwnedPool 2 8) 0 [1]
      { id := 0, virt := 4096, phys := 0, size := 8,
        ownership := Ownership.owned, state := BufState.idle,
        refCount := 0, userValid := true }
      (by decide) (by decide) (by decide) (by decide) (by decide) (by decide)
      (by decide) (by decide) (by decide)).1,
   (owned_pool_acquire_submit_consume_release_roundtrip (mkOwnedPool 2 8) 0 [1]
      { id := 0, virt := 4096, phys := 0, size := 8,
        ownership := Ownership.owned, state := BufState.idle,
        refCount := 0, userValid := true }
      (by decide) (by decide) (by decide) (by decide) (by decide) (by decide)
      (by decide) (by decide) (by decide)).2.2.2.2.1⟩

end BufferPool

/-! ## Claim C6 -/

namespace BufferPool

/-- C6: submitFilled and releaseFilled called with a null pointer, or with a
buffer that does not belong to the pool (its id absent from the id-map or
mapped to a different buffer object), are no-ops: the entire pool state --
queues, buffer records, reference counts -- is left unchanged.  The
reference is honest (its id field is whatever the object at that address
holds), and the pool is structurally well-formed. -/
theorem submit_release_null_or_foreign_noop
    (s : BufferPool) (r : BufRef)
    (hWF : WF s)
    (honest : ∀ b, alookup r.ptr s.heap = some b → b.id = r.id)
    (hforeign : alookup r.id s.bufferMap ≠ some r.ptr) :
    submitFilled s none = s ∧
    releaseFilled s none = s ∧
    submitFilled s (some r) = s ∧
    releaseFilled s (some r) = s := by
  have hv : verifyBufferOwnership s r = false := by
    unfold verifyBufferOwnership
    exact decide_eq_false hforeign
  have ht : alookup r.ptr s.transient = none := by
    cases htl : alookup r.ptr s.transient with
    | none => rfl
    | some hh =>
      exfalso
      have hlive := hWF.2.2.2.2.2.2.1 (r.ptr, hh) (alookup_mem htl)
      cases hb : alookup r.ptr s.heap with
      | none => rw [hb] at hlive; simp at hlive
      | some b =>
        have hid : b.id = r.id := honest b hb
        have hcons := hWF.2.1 (r.ptr, b) (alookup_mem hb)
        simp only at hcons
        rw [hid] at hcons
        exact hforeign hcons
  exact ⟨submitFilled_none s, releaseFilled_none s,
    submitFilled_foreign hv, releaseFilled_foreign ht hv⟩

/-- Witness for C6: a reference with id 5 (absent from the map) and address
7 (not a pool object) on a fresh one-buffer owned pool; both calls leave the
pool unchanged. -/
theorem submit_release_null_or_foreign_noop_witness :
    WF (mkOwnedPool 1 8) ∧
    submitFilled (mkOwnedPool 1 8) (some ⟨7, 5⟩) = mkOwnedPool 1 8 ∧
    releaseFilled (mkOwnedPool 1 8) (some ⟨7, 5⟩) = mkOwnedPool 1 8 :=
  ⟨by decide,
   (submit_release_null_or_foreign_noop (mkOwnedPool 1 8) ⟨7, 5⟩
      (by decide) (by decide) (by decide)).2.2.1,
   (submit_release_null_or_foreign_noop (mkOwnedPool 1 8) ⟨7, 5⟩
      (by decide) (by decide) (by decide)).2.2.2⟩

end BufferPool

/-! ## Claim C2 -/

namespace BufferPool

/-- C2 (amended): starting from any pool state satisfying the pool
invariant (as every freshly constructed pool does), after any sequence of
acquireFree, submitFilled, acquireFilled, releaseFilled, injectFilledBuffer
and ejectBuffer calls in which submit, release and eject are only applied to
buffers currently handed out, every buffer id occupies at most one place
among the free queue, the filled queue and the set of buffers in a
producer's or consumer's hands. -/
theorem id_occupies_at_most_one_place_of_legal_trace
    (s : BufferPool) (ops : List Op) (i : Nat)
    (hinv : inv s) (hleg : legalTraceB s ops = true) :
    ((occupancy (runOps s ops)).map (idAt (runOps s ops))).countP
      (fun x => decide (x = some i)) ≤ 1 := by
  have hinvt : inv (runOps s ops) := inv_runOps hleg hinv
  obtain ⟨hWF, hnd⟩ := hinvt
  have hinj : ∀ p ∈ occupancy (runOps s ops),
      ∀ q ∈ occupancy (runOps s ops),
      idAt (runOps s ops) p = idAt (runOps s ops) q → p = q :=
    fun p hp q hq hid => idAt_inj hWF (occupancy_live hWF p hp)
      (occupancy_live hWF q hq) hid
  have hmapnd : ((occupancy (runOps s ops)).map (idAt (runOps s ops))).Nodup :=
    List.Nodup.map_on hinj hnd
  exact List.nodup_iff_count_le_one.mp hmapnd (some i)

/-- Witness for C2: a legal five-call trace on a fresh two-buffer owned
pool (acquire, submit, consume, release, acquire again). -/
theorem id_occupies_at_most_one_place_of_legal_trace_witness :
    inv (mkOwnedPool 2 8) ∧
    legalTraceB (mkOwnedPool 2 8) [Op.acqFree, Op.submit 0, Op.acqFilled,
      Op.release 0, Op.acqFree] = true ∧
    ((occupancy (runOps (mkOwnedPool 2 8) [Op.acqFree, Op.submit 0,
        Op.acqFilled, Op.release 0, Op.acqFree])).map
      (idAt (runOps (mkOwnedPool 2 8) [Op.acqFree, Op.submit 0,
        Op.acqFilled, Op.release 0, Op.acqFree]))).countP
      (fun x => decide (x = some 0)) ≤ 1 :=
  ⟨by decide, by decide,
   id_occupies_at_most_one_place_of_legal_trace (mkOwnedPool 2 8)
     [Op.acqFree, Op.submit 0, Op.acqFilled, Op.release 0, Op.acqFree] 0
     (by decide) (by decide)⟩

/-- Counterexample to C2 as stated: the claim quantifies over arbitrary
sequences of the six calls, but submitFilled performs no state check, so a
client that re-submits a stale pointer after releasing it (acquire buffer 0,
submit it, consume it, release it, then submit the retained pointer again)
puts the very same buffer on the filled queue while it still sits in the
free queue: id 0 then occupies two places at once. -/
theorem id_occupies_two_places_after_stale_submit :
    ((occupancy (runOps (mkOwnedPool 1 8) [Op.acqFree, Op.submit 0,
        Op.acqFilled, Op.release 0, Op.submit 0])).map
      (idAt (runOps (mkOwnedPool 1 8) [Op.acqFree, Op.submit 0,
        Op.acqFilled, Op.release 0, Op.submit 0]))).countP
      (fun x => decide (x = some 0)) = 2 ∧
    0 ∈ (runOps (mkOwnedPool 1 8) [Op.acqFree, Op.submit 0, Op.acqFilled,
      Op.release 0, Op.submit 0]).freeQueue ∧
    0 ∈ (runOps (mkOwnedPool 1 8) [Op.acqFree, Op.submit 0, Op.acqFilled,
      Op.release 0, Op.submit 0]).filledQueue := by
  refine ⟨?_, ?_, ?_⟩ <;> decide

end BufferPool

/-! ## Claim C10 -/

namespace BufferPool

/-- A successful acquireFilled returns a buffer taken from the filled
queue. -/
theorem acquireFilled_returns_mem {t : BufferPool} {p : Nat}
    (h : (acquireFilled t).1 = some p) : p ∈ t.filledQueue := by
  cases hq : t.filledQueue with
  | nil => rw [acquireFilled_nil hq] at h; cases h
  | cons q r =>
    cases hl : alookup q t.heap with
    | none => rw [acquireFilled_dangling hq hl] at h; cases h
    | some b =>
      cases hv : validateBuffer t q b with
      | false => rw [acquireFilled_dead hq hl hv] at h; cases h
      | true =>
        rw [acquireFilled_ok hq hl hv] at h
        have hqp : q = p := Option.some.inj h
        subst hqp
        exact List.mem_cons_self _ _

/-- C10: when acquireFilled pops a buffer that fails validateBuffer, it
returns null without pushing the buffer back onto any queue -- the rest of
the pool state (heap, id-map, free queue) is untouched -- and from then on,
along any protocol-respecting sequence of calls, that buffer appears on
neither queue and is never returned to a consumer by acquireFilled. -/
theorem acquireFilled_invalid_buffer_permanently_dropped
    (s : BufferPool) (p : Nat) (rest : List Nat) (b : Buffer)
    (hinv : inv s)
    (hq : s.filledQueue = p :: rest)
    (hl : alookup p s.heap = some b)
    (hv : validateBuffer s p b = false) :
    acquireFilled s = (none, { s with filledQueue := rest }) ∧
    (∀ ops : List Op,
      legalTraceB { s with filledQueue := rest } ops = true →
      p ∉ (runOps { s with filledQueue := rest } ops).freeQueue ∧
      p ∉ (runOps { s with filledQueue := rest } ops).filledQueue ∧
      (acquireFilled (runOps { s with filledQueue := rest } ops)).1
        ≠ some p) := by
  obtain ⟨hWF, hnd⟩ := hinv
  have hndq : ((s.freeQueue ++ (p :: rest)) ++ s.acquired).Nodup := by
    have hh := hnd
    unfold occupancy at hh
    rw [hq] at hh
    exact hh
  obtain ⟨hfr, hfi, hac, hd1, hd2, hd3⟩ := occupancy_split hndq
  have hpfree : p ∉ s.freeQueue :=
    fun hmem => hd1 p hmem (List.mem_cons_self p rest)
  have hprest : p ∉ rest := (List.nodup_cons.mp hfi).1
  have hpacq : p ∉ s.acquired :=
    fun hmem => hd3 p (List.mem_cons_self p rest) hmem
  have hpn : p < s.nextPtr := by
    rcases List.mem_map.mp (alookup_isSome_mem_keys (by rw [hl]; rfl))
      with ⟨e, he, hk⟩
    exact hk ▸ hWF.2.2.2.2.2.2.2.1 e he
  have hb : banished { s with filledQueue := rest } p :=
    ⟨hpfree, hprest, hpacq, hpn⟩
  refine ⟨acquireFilled_dead hq hl hv, ?_⟩
  intro ops hleg
  have hban := banished_runOps hleg hb
  refine ⟨hban.1, hban.2.1, ?_⟩
  intro hret
  exact hban.2.1 (acquireFilled_returns_mem hret)

/-- Witness for C10: inject a size-0 handle into a fresh dynamic pool; the
injected buffer fails validation at acquireFilled, is dropped from the
filled queue, and after a further acquireFree call it is still on no
queue. -/
theorem acquireFilled_invalid_buffer_permanently_dropped_witness :
    inv (injectFilledBuffer mkDynamicPool ⟨5, 0, 0, true, false,
      some true, 7⟩).2 ∧
    acquireFilled (injectFilledBuffer mkDynamicPool ⟨5, 0, 0, true, false,
      some true, 7⟩).2 =
      (none, { (injectFilledBuffer mkDynamicPool ⟨5, 0, 0, true, false,
        some true, 7⟩).2 with filledQueue := [] }) ∧
    0 ∉ (runOps { (injectFilledBuffer mkDynamicPool ⟨5, 0, 0, true, false,
      some true, 7⟩).2 with filledQueue := [] } [Op.acqFree]).filledQueue :=
  ⟨by decide,
   (acquireFilled_invalid_buffer_permanently_dropped
      (injectFilledBuffer mkDynamicPool ⟨5, 0, 0, true, false,
        some true, 7⟩).2 0 []
      { id := 0, virt := 5, phys := 0, size := 0,
        ownership := Ownership.external, state := BufState.readyForConsume,
        refCount := 0, userValid := true }
      (by decide) (by decide) (by decide) (by decide)).1,
   ((acquireFilled_invalid_buffer_permanently_dropped
      (injectFilledBuffer mkDynamicPool ⟨5, 0, 0, true, false,
        some true, 7⟩).2 0 []
      { id := 0, virt := 5, phys := 0, size := 0,
        ownership := Ownership.external, state := BufState.readyForConsume,
        refCount := 0, userValid := true }
      (by decide) (by decide) (by decide) (by decide)).2
      [Op.acqFree] (by decide)).2.1⟩

end BufferPool

/-! ## Claim C4 -/

theorem aerase_eq_of_forall_ne {α : Type} {k : Nat} :
    ∀ {l : List (Nat × α)}, (∀ e ∈ l, e.1 ≠ k) → aerase k l = l := by
  intro l
  induction l with
  | nil => intro _; rfl
  | cons e es ih =>
    intro hne
    rw [aerase, if_neg (hne e (List.mem_cons_self _ _)),
      ih (fun e0 he0 => hne e0 (List.mem_cons_of_mem _ he0))]

namespace BufferPool

theorem livenessOk_of_id_ge {s : BufferPool} {b : Buffer}
    (hid : s.trackers.length ≤ b.id) : livenessOk s b = true := by
  unfold livenessOk
  cases b.ownership with
  | owned => rfl
  | external => rw [if_neg (Nat.not_lt.mpr hid)]

/-- C4 (amended): on a dynamic-injection pool whose filled queue is empty,
injecting a live handle with positive size and a deleter, then acquiring the
filled buffer and releasing it, invokes the handle's deleter exactly once
(one new entry in the deleter-call log), removes the injected buffer's id
from the id-map, returns the transient table to its size before the
injection, and never places the injected buffer on the free queue. -/
theorem inject_acquire_release_runs_deleter_once
    (s : BufferPool) (h : BufferHandle)
    (hWF : WF s)
    (hfq : s.filledQueue = [])
    (hvirt : h.virt ≠ 0)
    (hsize : 0 < h.size)
    (hdel : h.hasDeleter = true)
    (halive : h.alive.isSome = true) :
    (injectFilledBuffer s h).1 = some s.nextPtr ∧
    (acquireFilled (injectFilledBuffer s h).2).1 = some s.nextPtr ∧
    (releaseFilled (acquireFilled (injectFilledBuffer s h).2).2
      (some (refOf (acquireFilled (injectFilledBuffer s h).2).2
        s.nextPtr))).deleterCalls = h.token :: s.deleterCalls ∧
    alookup s.nextId (releaseFilled
      (acquireFilled (injectFilledBuffer s h).2).2
      (some (refOf (acquireFilled (injectFilledBuffer s h).2).2
        s.nextPtr))).bufferMap = none ∧
    (releaseFilled (acquireFilled (injectFilledBuffer s h).2).2
      (some (refOf (acquireFilled (injectFilledBuffer s h).2).2
        s.nextPtr))).transient.length = s.transient.length ∧
    s.nextPtr ∉ (injectFilledBuffer s h).2.freeQueue ∧
    s.nextPtr ∉ (acquireFilled (injectFilledBuffer s h).2).2.freeQueue ∧
    s.nextPtr ∉ (releaseFilled (acquireFilled (injectFilledBuffer s h).2).2
      (some (refOf (acquireFilled (injectFilledBuffer s h).2).2
        s.nextPtr))).freeQueue := by
  have hval : h.isValidB = true := by
    unfold BufferHandle.isValidB
    exact decide_eq_true hvirt
  have e1 := @injectFilledBuffer_valid s h hval
  have hfq1 : (injectFilledBuffer s h).2.filledQueue = s.nextPtr :: [] := by
    rw [e1]
    show s.filledQueue ++ [s.nextPtr] = s.nextPtr :: []
    rw [hfq]
    rfl
  have hl1 : alookup s.nextPtr (injectFilledBuffer s h).2.heap =
      some { id := s.nextId, virt := h.virt, phys := h.phys, size := h.size
             ownership := Ownership.external
             state := BufState.readyForConsume
             refCount := 0, userValid := true } := by
    rw [e1]
    exact alookup_cons_self _ _ _
  have hmap1 : alookup s.nextId
      (injectFilledBuffer s h).2.bufferMap = some s.nextPtr := by
    rw [e1]
    exact alookup_cons_self _ _ _
  have htrk1 : (injectFilledBuffer s h).2.trackers.length ≤ s.nextId := by
    rw [e1]
    exact hWF.2.2.2.2.2.2.2.2.2
  have hv1 : validateBuffer (injectFilledBuffer s h).2 s.nextPtr
      { id := s.nextId, virt := h.virt, phys := h.phys, size := h.size
        ownership := Ownership.external, state := BufState.readyForConsume
        refCount := 0, userValid := true } = true := by
    refine validateBuffer_true_of ?_ hmap1 ?_ rfl
    · unfold Buffer.isValidB
      simp [hvirt, hsize]
    · exact livenessOk_of_id_ge htrk1
  have e2 := acquireFilled_ok hfq1 hl1 hv1
  have ht2 : alookup (refOf (acquireFilled (injectFilledBuffer s h).2).2
      s.nextPtr).ptr
      (acquireFilled (injectFilledBuffer s h).2).2.transient = some h := by
    rw [e2, e1]
    exact alookup_cons_self _ _ _
  have hl2 : alookup (refOf (acquireFilled (injectFilledBuffer s h).2).2
      s.nextPtr).ptr
      (acquireFilled (injectFilledBuffer s h).2).2.heap =
      some { id := s.nextId, virt := h.virt, phys := h.phys, size := h.size
             ownership := Ownership.external
             state := BufState.lockedByConsumer
             refCount := 0, userValid := true } := by
    rw [e2]
    show alookup s.nextPtr
      (aupdate s.nextPtr _ (injectFilledBuffer s h).2.heap) = _
    rw [alookup_aupdate_self, hl1]
    rfl
  have e4 := ejectBuffer_transient ht2 hl2
  have hrun : h.deleterRuns = true := by
    unfold BufferHandle.deleterRuns
    simp [hvirt, halive, hdel]
  have hfreshp : ∀ q, (alookup q s.heap).isSome = true → q < s.nextPtr := by
    intro q hql
    rcases List.mem_map.mp (alookup_isSome_mem_keys hql) with ⟨e, he, hk⟩
    exact hk ▸ hWF.2.2.2.2.2.2.2.1 e he
  have hPfree : s.nextPtr ∉ s.freeQueue :=
    fun hmem => absurd (hfreshp _ (hWF.2.2.2.1 _ hmem)) (lt_irrefl _)
  refine ⟨?_, ?_, ?_, ?_, ?_, ?_, ?_, ?_⟩
  · rw [e1]
  · rw [e2]
  · rw [releaseFilled_transient ht2, e4]
    show (if h.deleterRuns = true
        then h.token ::
          (acquireFilled (injectFilledBuffer s h).2).2.deleterCalls
        else (acquireFilled (injectFilledBuffer s h).2).2.deleterCalls)
      = h.token :: s.deleterCalls
    rw [if_pos hrun, e2, e1]
  · rw [releaseFilled_transient ht2, e4]
    show alookup s.nextId (aerase s.nextId
      (acquireFilled (injectFilledBuffer s h).2).2.bufferMap) = none
    exact alookup_aerase_self _ _
  · rw [releaseFilled_transient ht2, e4]
    show (aerase s.nextPtr
      (acquireFilled (injectFilledBuffer s h).2).2.transient).length
      = s.transient.length
    rw [e2, e1]
    show (aerase s.nextPtr ((s.nextPtr, h) :: s.transient)).length
      = s.transient.length
    rw [aerase, if_pos rfl, aerase_eq_of_forall_ne ?_]
    intro e he heq
    exact absurd (hfreshp e.1 (hWF.2.2.2.2.2.2.1 e he)) (heq ▸ lt_irrefl _)
  · rw [e1]
    exact hPfree
  · rw [e2, e1]
    exact hPfree
  · rw [releaseFilled_transient ht2, e4]
    show s.nextPtr ∉
      (acquireFilled (injectFilledBuffer s h).2).2.freeQueue
    rw [e2, e1]
    exact hPfree

/-- Witness for C4 (amended): inject a live 16-byte handle with deleter
token 7 into a fresh dynamic pool, acquire it, release it; the deleter log
gains exactly the one token and the transient table is empty again. -/
theorem inject_acquire_release_runs_deleter_once_witness :
    WF mkDynamicPool ∧
    (injectFilledBuffer mkDynamicPool
      ⟨500, 0, 16, true, false, some true, 7⟩).1 = some 0 ∧
    (releaseFilled (acquireFilled (injectFilledBuffer mkDynamicPool
        ⟨500, 0, 16, true, false, some true, 7⟩).2).2
      (some (refOf (acquireFilled (injectFilledBuffer mkDynamicPool
        ⟨500, 0, 16, true, false, some true, 7⟩).2).2 0))).deleterCalls
      = 7 :: [] :=
  ⟨by decide,
   (inject_acquire_release_runs_deleter_once mkDynamicPool
      ⟨500, 0, 16, true, false, some true, 7⟩
      (by decide) (by decide) (by decide) (by decide) (by decide)
      (by decide)).1,
   (inject_acquire_release_runs_deleter_once mkDynamicPool
      ⟨500, 0, 16, true, false, some true, 7⟩
      (by decide) (by decide) (by decide) (by decide) (by decide)
      (by decide)).2.2.1⟩

/-- Counterexample to C4 as stated: a handle with non-null address but size
0 passes BufferHandle::isValid, so injectFilledBuffer accepts it; the
injected buffer then fails validateBuffer inside acquireFilled (size 0), the
consumer gets null and releases nothing, so the deleter never runs and the
transient table keeps the orphaned entry instead of returning to its prior
size. -/
theorem inject_zero_size_handle_deleter_never_runs :
    BufferHandle.isValidB ⟨5, 0, 0, true, false, some true, 7⟩ = true ∧
    (injectFilledBuffer mkDynamicPool
      ⟨5, 0, 0, true, false, some true, 7⟩).1 = some 0 ∧
    (acquireFilled (injectFilledBuffer mkDynamicPool
      ⟨5, 0, 0, true, false, some true, 7⟩).2).1 = none ∧
    (releaseFilled (acquireFilled (injectFilledBuffer mkDynamicPool
      ⟨5, 0, 0, true, false, some true, 7⟩).2).2 none).deleterCalls = [] ∧
    (releaseFilled (acquireFilled (injectFilledBuffer mkDynamicPool
      ⟨5, 0, 0, true, false, some true, 7⟩).2).2 none).transient.length
      = 1 := by
  refine ⟨?_, ?_, ?_, ?_, ?_⟩ <;> decide

end BufferPool

/-! ## Claim C5 -/

namespace BufferHandle

/-- C5: destroying a live BufferHandle (non-null virtual address) first sets
the shared liveness flag to false and only then runs the release action if
one was supplied -- the flag is already false at the moment the release
action executes; an exception thrown by the release action never escapes the
destructor; and afterwards a weak observer of the flag sees it expired or
holding false, never true. -/
theorem destruct_sets_flag_before_deleter (h : BufferHandle)
    (hvirt : h.virt ≠ 0) (halive : h.alive.isSome = true) :
    (destruct h).events = DtorEvent.setFlagFalse ::
      (if h.hasDeleter then [DtorEvent.runDeleter] else []) ∧
    (h.hasDeleter = true → (destruct h).flagAtDeleter = some false) ∧
    (destruct h).escapes = false ∧
    ((destruct h).observerAfter = none ∨
      (destruct h).observerAfter = some false) := by
  unfold destruct
  rw [if_pos (by simp [hvirt, halive])]
  cases hd : h.hasDeleter with
  | false => simp
  | true => simp

/-- Witness for C5: a live handle whose deleter throws; the flag is set
first, the deleter runs with the flag already false, and no exception
escapes. -/
theorem destruct_sets_flag_before_deleter_witness :
    (500 : Nat) ≠ 0 ∧
    (destruct ⟨500, 0, 16, true, true, some true, 3⟩).events =
      DtorEvent.setFlagFalse :: [DtorEvent.runDeleter] ∧
    (destruct ⟨500, 0, 16, true, true, some true, 3⟩).flagAtDeleter =
      some false ∧
    (destruct ⟨500, 0, 16, true, true, some true, 3⟩).escapes = false :=
  ⟨by decide,
   (destruct_sets_flag_before_deleter ⟨500, 0, 16, true, true, some true, 3⟩
      (by decide) (by decide)).1,
   (destruct_sets_flag_before_deleter ⟨500, 0, 16, true, true, some true, 3⟩
      (by decide) (by decide)).2.1 (by decide),
   (destruct_sets_flag_before_deleter ⟨500, 0, 16, true, true, some true, 3⟩
      (by decide) (by decide)).2.2.1⟩

end BufferHandle

/-! ## LinuxFramebufferDevice: the DMA display path

Embeds LinuxFramebufferDevice::displayBufferByDMA
(src/source/display/LinuxFramebufferDevice.cpp lines 426-486).  The three
ioctl calls are modelled as driver commands submitted in order; each may
fail, which the device state records.
-/

/-- A command submitted to the framebuffer driver. -/
inductive DriverCmd where
  | setDmaInfo (overlay : Nat) (physAddr : Nat)
  | getVScreenInfo
  | panDisplay (yoffset : Nat)
deriving DecidableEq, Repr

/-- The observable device state: whether initialize succeeded, and whether
each driver ioctl would succeed. -/
structure FbDevState where
  isInitialized : Bool
  setDmaInfoOk : Bool
  getVScreenInfoOk : Bool
  panDisplayOk : Bool
deriving DecidableEq, Repr

namespace LinuxFramebufferDevice

/-- Embeds LinuxFramebufferDevice::displayBufferByDMA: reject when the
device is uninitialized, the buffer pointer is null, or the buffer's
physical address is 0, all without touching the driver; otherwise submit
FB_IOCTL_SET_DMA_INFO with the physical address, query the screen info, and
pan to offset 0, failing as soon as an ioctl fails.  Returns the success
flag and the list of driver commands submitted. -/
def displayBufferByDMA (d : FbDevState) (buffer : Option Buffer) :
    Bool × List DriverCmd :=
  if !d.isInitialized then (false, [])
  else
    match buffer with
    | none => (false, [])
    | some b =>
      if b.phys = 0 then (false, [])
      else if !d.setDmaInfoOk then
        (false, [DriverCmd.setDmaInfo 0 b.phys])
      else if !d.getVScreenInfoOk then
        (false, [DriverCmd.setDmaInfo 0 b.phys, DriverCmd.getVScreenInfo])
      else if !d.panDisplayOk then
        (false, [DriverCmd.setDmaInfo 0 b.phys, DriverCmd.getVScreenInfo,
          DriverCmd.panDisplay 0])
      else
        (true, [DriverCmd.setDmaInfo 0 b.phys, DriverCmd.getVScreenInfo,
          DriverCmd.panDisplay 0])

/-- C8: on an initialized device, displayBufferByDMA fails immediately --
returning false with nothing submitted to the driver -- whenever the buffer
is null or its physical address is 0; and it can only succeed on a non-null
buffer with a non-zero physical address. -/
theorem displayBufferByDMA_requires_phys (d : FbDevState)
    (buffer : Option Buffer) (hinit : d.isInitialized = true) :
    ((buffer = none ∨ (∃ b, buffer = some b ∧ b.phys = 0)) →
      displayBufferByDMA d buffer = (false, [])) ∧
    ((displayBufferByDMA d buffer).1 = true →
      ∃ b, buffer = some b ∧ b.phys ≠ 0) := by
  constructor
  · intro hbad
    rcases hbad with hnone | ⟨b, hsome, hphys⟩
    · subst hnone
      simp [displayBufferByDMA, hinit]
    · subst hsome
      simp [displayBufferByDMA, hinit, hphys]
  · intro hok
    cases hb : buffer with
    | none =>
      rw [hb] at hok
      simp [displayBufferByDMA, hinit] at hok
    | some b =>
      rw [hb] at hok
      refine ⟨b, rfl, ?_⟩
      intro hphys
      simp [displayBufferByDMA, hinit, hphys] at hok

/-- Witness for C8: an initialized device given a buffer whose physical
address is 0 refuses the call and submits nothing. -/
theorem displayBufferByDMA_requires_phys_witness :
    (⟨true, true, true, true⟩ : FbDevState).isInitialized = true ∧
    displayBufferByDMA ⟨true, true, true, true⟩
      (some { id := 0, virt := 4096, phys := 0, size := 8,
              ownership := Ownership.owned, state := BufState.idle,
              refCount := 0, userValid := true }) = (false, []) :=
  ⟨by decide,
   (displayBufferByDMA_requires_phys ⟨true, true, true, true⟩
      (some { id := 0, virt := 4096, phys := 0, size := 8,
              ownership := Ownership.owned, state := BufState.idle,
              refCount := 0, userValid := true }) (by decide)).1
     (Or.inr ⟨_, rfl, by decide⟩)⟩

end LinuxFramebufferDevice

/-! ## MmapVideoReader: raw-mode open arithmetic

Embeds the size arithmetic of MmapVideoReader::openRaw
(src/source/videoFile/MmapVideoReader.cpp lines 136-192) and
MmapVideoReader::validateFile (lines 364-393).
-/

namespace MmapVideoReader

/-- The result of a successful raw open: the computed frame size and the
number of whole frames in the file. -/
structure RawOpenResult where
  frameSize : Nat
  totalFrames : Nat
deriving DecidableEq, Repr

/-- Frame size computation of openRaw (lines 155-156):
(width * height * bits_per_pixel + 7) / 8. -/
def computeFrameSize (w h bpp : Nat) : Nat := (w * h * bpp + 7) / 8

/-- Embeds MmapVideoReader::validateFile: reject an empty file, compute
total_frames = file_size / frame_size, reject a file holding less than one
whole frame; a trailing partial frame only triggers a warning. -/
def validateFile (fileSize frameSize : Nat) : Option Nat :=
  if fileSize = 0 then none
  else if fileSize / frameSize = 0 then none
  else some (fileSize / frameSize)

/-- Embeds the parameter checking and size arithmetic of
MmapVideoReader::openRaw: non-positive dimensions are rejected, then the
file is validated against the computed frame size. -/
def openRaw (w h bpp fileSize : Nat) : Option RawOpenResult :=
  if w = 0 ∨ h = 0 ∨ bpp = 0 then none
  else
    match validateFile fileSize (computeFrameSize w h bpp) with
    | none => none
    | some t => some ⟨computeFrameSize w h bpp, t⟩

/-- C9: for positive width, height and bits-per-pixel, a successful raw open
reports frame size ⌈width * height * bpp / 8⌉ bytes (the unique value with
bits ≤ 8 * frameSize < bits + 8) and total_frames = ⌊file_size /
frame_size⌋ ≥ 1, so a trailing partial frame is excluded (frameSize *
totalFrames ≤ fileSize); and the open fails whenever the file holds less
than one whole frame. -/
theorem openRaw_frame_arithmetic (w h bpp fileSize : Nat)
    (hw : 0 < w) (hh : 0 < h) (hb : 0 < bpp) :
    (∀ r, openRaw w h bpp fileSize = some r →
      r.frameSize = (w * h * bpp + 7) / 8 ∧
      w * h * bpp ≤ 8 * r.frameSize ∧
      8 * r.frameSize < w * h * bpp + 8 ∧
      r.totalFrames = fileSize / r.frameSize ∧
      1 ≤ r.totalFrames ∧
      r.frameSize * r.totalFrames ≤ fileSize) ∧
    (fileSize < (w * h * bpp + 7) / 8 → openRaw w h bpp fileSize = none) := by
  have hcond : ¬(w = 0 ∨ h = 0 ∨ bpp = 0) := by
    push_neg
    omega
  constructor
  · intro r hr
    unfold openRaw validateFile computeFrameSize at hr
    rw [if_neg hcond] at hr
    by_cases hf0 : fileSize = 0
    · rw [if_pos hf0] at hr
      simp at hr
    · rw [if_neg hf0] at hr
      by_cases hdiv : fileSize / ((w * h * bpp + 7) / 8) = 0
      · rw [if_pos hdiv] at hr
        simp at hr
      · rw [if_neg hdiv] at hr
        have hr2 : (⟨(w * h * bpp + 7) / 8,
            fileSize / ((w * h * bpp + 7) / 8)⟩ : RawOpenResult) = r :=
          Option.some.inj hr
        rw [← hr2]
        refine ⟨rfl, ?_, ?_, rfl, Nat.pos_of_ne_zero hdiv, ?_⟩
        · show w * h * bpp ≤ 8 * ((w * h * bpp + 7) / 8)
          omega
        · show 8 * ((w * h * bpp + 7) / 8) < w * h * bpp + 8
          omega
        · simpa [Nat.mul_comm] using
            Nat.div_mul_le_self fileSize ((w * h * bpp + 7) / 8)
  · intro hsmall
    unfold openRaw validateFile computeFrameSize
    rw [if_neg hcond]
    by_cases hf0 : fileSize = 0
    · rw [if_pos hf0]
    · rw [if_neg hf0, if_pos (Nat.div_eq_of_lt hsmall)]

end MmapVideoReader

namespace MmapVideoReader

/-- Witness for C9: a raw 2x2, 8-bit file of 9 bytes has 4-byte frames and
exactly 2 whole frames; the trailing byte is excluded. -/
theorem openRaw_frame_arithmetic_witness :
    (0 < 2 ∧ 0 < 8) ∧
    openRaw 2 2 8 9 = some ⟨4, 2⟩ ∧
    (⟨4, 2⟩ : RawOpenResult).frameSize = (2 * 2 * 8 + 7) / 8 ∧
    (⟨4, 2⟩ : RawOpenResult).frameSize *
      (⟨4, 2⟩ : RawOpenResult).totalFrames ≤ 9 :=
  ⟨⟨by decide, by decide⟩, by decide,
   ((openRaw_frame_arithmetic 2 2 8 9 (by decide) (by decide)
      (by decide)).1 ⟨4, 2⟩ (by decide)).1,
   ((openRaw_frame_arithmetic 2 2 8 9 (by decide) (by decide)
      (by decide)).1 ⟨4, 2⟩ (by decide)).2.2.2.2.2⟩

end MmapVideoReader
